import Mathlib

/-!
Verification development for the S1000D smart processor
(src/s1000d_smart_processor.py).

The Python functions are shallowly embedded as executable Lean functions over
String / List Char.  Conventions for the embedding:
  - Python str values are Lean String; most work happens on String.data.
  - Python character classes are modelled on ASCII (\s as Char.isWhitespace,
    \d as Char.isDigit, \w as alphanumeric or underscore, str.upper as the
    ASCII case map); all inputs exercised by the theorems are ASCII.
  - Regex searches are hand-compiled to scanners.  The regexes of the source
    only combine literals with character classes whose members are disjoint
    from the following context (e.g. a whitespace run followed by a digit), so
    greedy matching without backtracking is exact for them.
  - Python float comparisons against the literals 0.85 and 0.7 are modelled as
    exact rational comparisons; for the integer operand ranges arising here the
    double roundings cannot flip the comparison.
  - Page numbers are Int, since the source subtracts them (spans can be
    negative).
-/

set_option maxRecDepth 4000
set_option maxHeartbeats 1000000

/-! ## Python string primitives -/

/-- Python str.strip: drop whitespace from both ends. -/
def pyStripL (l : List Char) : List Char :=
  ((l.dropWhile Char.isWhitespace).reverse.dropWhile Char.isWhitespace).reverse

/-- Python str.strip on String. -/
def pyStripS (s : String) : String := String.mk (pyStripL s.data)

/-- Python str.upper (ASCII case map). -/
def pyUpper (s : String) : String := String.mk (s.data.map Char.toUpper)

/-- Python str.lower (ASCII case map). -/
def pyLower (s : String) : String := String.mk (s.data.map Char.toLower)

/-- needle occurs as a contiguous sublist of hay. -/
def isInfixL (needle : List Char) : List Char → Bool
  | [] => needle.isEmpty
  | c :: cs => needle.isPrefixOf (c :: cs) || isInfixL needle cs

/-- Python substring containment: needle in hay. -/
def strContains (hay needle : String) : Bool := isInfixL needle.data hay.data

/-- any(k in hay for k in keys). -/
def containsAny (hay : String) (keys : List String) : Bool :=
  keys.any (fun k => strContains hay k)

mutual
/-- re.sub of r"\s+" by a single space: copying state. -/
def collapseL : List Char → List Char
  | [] => []
  | c :: cs => if c.isWhitespace then ' ' :: collapseSkip cs else c :: collapseL cs
/-- re.sub of r"\s+" by a single space: inside a whitespace run. -/
def collapseSkip : List Char → List Char
  | [] => []
  | c :: cs => if c.isWhitespace then collapseSkip cs else c :: collapseL cs
end

/-- Python str.split() accumulator: current word is collected in acc (reversed). -/
def pySplitAux : List Char → List Char → List (List Char)
  | [], acc => if acc.isEmpty then [] else [acc.reverse]
  | c :: cs, acc =>
    if c.isWhitespace then
      if acc.isEmpty then pySplitAux cs [] else acc.reverse :: pySplitAux cs []
    else pySplitAux cs (c :: acc)

/-- Python str.split() with no argument: split on whitespace runs, no empties. -/
def pySplitL (l : List Char) : List (List Char) := pySplitAux l []

/-- Python str.split() on String. -/
def pySplitS (s : String) : List String := (pySplitL s.data).map String.mk

/-- Python " ".join on char lists. -/
def joinSpaceL : List (List Char) → List Char
  | [] => []
  | [w] => w
  | w :: ws => w ++ ' ' :: joinSpaceL ws

/-- Python " ".join on Strings. -/
def joinSpace (ws : List String) : String := String.mk (joinSpaceL (ws.map String.data))

/-- Python "\n".join on char lists. -/
def joinNlL : List (List Char) → List Char
  | [] => []
  | [w] => w
  | w :: ws => w ++ '\n' :: joinNlL ws

/-- Python "\n".join on Strings. -/
def joinNl (ws : List String) : String := String.mk (joinNlL (ws.map String.data))

/-- Python str.split("\n"): keeps empty pieces. -/
def splitNl : List Char → List (List Char)
  | [] => [[]]
  | c :: cs =>
    if c = '\n' then [] :: splitNl cs
    else
      match splitNl cs with
      | [] => [[c]]
      | h :: t => (c :: h) :: t

/-- text.split("\n") on String. -/
def linesOf (s : String) : List String := (splitNl s.data).map String.mk

/-- Python str.replace(pat, "") — remove every occurrence, leftmost first.
Structural recursion on a fuel initialized to the input length, which always
suffices since every step consumes at least one character. -/
def removeSubFuel (pat : List Char) : Nat → List Char → List Char
  | _, [] => []
  | 0, l => l
  | fuel + 1, c :: cs =>
    if !pat.isEmpty && pat.isPrefixOf (c :: cs) then
      removeSubFuel pat fuel (cs.drop (pat.length - 1))
    else c :: removeSubFuel pat fuel cs

/-- Python str.replace(pat, ""). -/
def removeSub (pat l : List Char) : List Char := removeSubFuel pat l.length l

/-- Python str.isupper (ASCII): has a letter and no lowercase letter. -/
def pyIsUpper (l : List Char) : Bool := l.any Char.isAlpha && l.all (fun c => !c.isLower)

/-- Python \w (ASCII): letter, digit or underscore. -/
def isWordChar (c : Char) : Bool := c.isAlphanum || c = '_'

/-- Python int() of a decimal string (optional sign, digits). -/
def parseIntS (s : String) : Option Int :=
  let t := pyStripL s.data
  let core : List Char → Option Int := fun ds =>
    if !ds.isEmpty && ds.all Char.isDigit then
      some (Int.ofNat (ds.foldl (fun n c => 10 * n + (c.toNat - 48)) 0))
    else none
  match t with
  | '-' :: rest => (core rest).map (fun n => -n)
  | '+' :: rest => core rest
  | _ => core t

/-! ## Regex scanners used by the line classifier -/

/-- After a whitespace run (already at least one consumed), skip the rest of the
run and apply the continuation at the first non-whitespace suffix. -/
def afterWsL (k : List Char → Bool) : List Char → Bool
  | [] => k []
  | c :: cs => if c.isWhitespace then afterWsL k cs else k (c :: cs)

/-- \s+ then continuation: needs at least one whitespace char. -/
def wsPlusL (k : List Char → Bool) : List Char → Bool
  | [] => false
  | c :: cs => c.isWhitespace && afterWsL k cs

/-- Continuation testing the head character. -/
def headIs (p : Char → Bool) : List Char → Bool
  | [] => false
  | c :: _ => p c

/-- Exactly four digits at the head (\d{4}). -/
def fourDigits (l : List Char) : Bool :=
  decide ((l.take 4).length = 4) && (l.take 4).all Char.isDigit

/-- re.match r"^(CHAPTER|SECTION|PART)\s+\d+" against the uppercased line. -/
def accChapter (u : List Char) : Bool :=
  ("CHAPTER".data.isPrefixOf u && wsPlusL (headIs Char.isDigit) (u.drop 7)) ||
  ("SECTION".data.isPrefixOf u && wsPlusL (headIs Char.isDigit) (u.drop 7)) ||
  ("PART".data.isPrefixOf u && wsPlusL (headIs Char.isDigit) (u.drop 4))

/-- [A-Z\s]{35,}$ tail of acceptance rule 2. -/
def capsTail (l : List Char) : Bool :=
  decide (35 ≤ l.length) && l.all (fun c => c.isUpper || c.isWhitespace)

/-- After the whitespace run of rule 2: [A-Z][A-Z\s]{35,}$. -/
def capsStart : List Char → Bool
  | [] => false
  | c :: cs => c.isUpper && capsTail cs

/-- Tail of rule 2 after the leading digits: "." then \s+[A-Z][A-Z\s]{35,}$. -/
def accNumTail : List Char → Bool
  | [] => false
  | c :: cs => if c.isDigit then accNumTail cs else c = '.' && wsPlusL capsStart cs

/-- re.match r"^\d+\.\s+[A-Z][A-Z\s]{35,}$" against the original line. -/
def accNumbered : List Char → Bool
  | [] => false
  | c :: cs => c.isDigit && accNumTail cs

/-- Acceptance rule 3: line_upper.isupper() and 35 <= len(line_upper) <= 40.
Note isupper() of the uppercased line holds whenever the line has a letter. -/
def accUpper (line : String) : Bool :=
  let lu := pyUpper line
  pyIsUpper lu.data && decide (35 ≤ lu.length) && decide (lu.length ≤ 40)

/-- The fixed list of known top-level headings (acceptance rule 4). -/
def main_keywords : List String :=
  ["INTRODUCTION TO THE F-16 FIGHTING FALCON",
   "OVERVIEW OF F-16 SYSTEMS",
   "GENERAL INFORMATION",
   "SYSTEM DESCRIPTION",
   "TECHNICAL SPECIFICATIONS",
   "MAINTENANCE PROCEDURES",
   "TROUBLESHOOTING GUIDE",
   "APPENDICES",
   "TECHNICAL DATA",
   "PERFORMANCE DATA",
   "SAFETY PROCEDURES",
   "OPERATIONAL PROCEDURES"]

/-- Acceptance rule 4: the uppercased line equals one of the known headings. -/
def accKeyword (lu : String) : Bool := main_keywords.any (fun k => lu == k)

/-- Uniqueness-ratio filter (rule 7): len(set(words)) < len(words) * 0.85,
modelled exactly as 20*distinct < 17*total. -/
def rejRepeatWords (u : List Char) : Bool :=
  let ws := pySplitL u
  decide (20 * ws.dedup.length < 17 * ws.length)

/-- "." then a digit, for the \d+\.\d+ alternative of rule 8. -/
def dotDigit : List Char → Bool
  | c :: d :: _ => c = '.' && d.isDigit
  | _ => false

/-- One alternative of rule 8 matching at this position (a digit followed by a
unit suffix or a decimal point and digit). -/
def unitAt : List Char → Bool
  | c :: cs =>
    c.isDigit &&
      (dotDigit cs || "kg".data.isPrefixOf cs || "lb".data.isPrefixOf cs ||
       "ft".data.isPrefixOf cs || "m".data.isPrefixOf cs || "km".data.isPrefixOf cs ||
       "mph".data.isPrefixOf cs || "kmh".data.isPrefixOf cs)
  | [] => false

/-- re.search of rule 8 over the original line. -/
def hasNumericUnit : List Char → Bool
  | [] => false
  | c :: cs => unitAt (c :: cs) || hasNumericUnit cs

/-- r"\([A-Z0-9\-]+\)" matching at this position. -/
def parenAt : List Char → Bool
  | c :: cs =>
    c = '(' &&
      (let run := cs.takeWhile (fun d => d.isUpper || d.isDigit || d = '-')
       !run.isEmpty && (cs.drop run.length).headD ' ' = ')')
  | [] => false

/-- re.search of rule 9. -/
def hasParenCode : List Char → Bool
  | [] => false
  | c :: cs => parenAt (c :: cs) || hasParenCode cs

/-- \s+BLOCK\s+\d+ tail of rule 12. -/
def blockTail : List Char → Bool :=
  wsPlusL (fun l => "BLOCK".data.isPrefixOf l && wsPlusL (headIs Char.isDigit) (l.drop 5))

/-- r"F-16[A-Z]?\s+BLOCK\s+\d+" matching at this position. -/
def blockAt (l : List Char) : Bool :=
  "F-16".data.isPrefixOf l &&
    (let r := l.drop 4
     (match r with
      | u :: rest => u.isUpper && blockTail rest
      | [] => false) ||
     blockTail r)

/-- re.search of rule 12 over the uppercased line. -/
def hasBlockCode : List Char → Bool
  | [] => false
  | c :: cs => blockAt (c :: cs) || hasBlockCode cs

/-- r"circa\s+\d{4}" matching at this position (never fires on an uppercased
line, kept for fidelity). -/
def circaWsAt (l : List Char) : Bool :=
  "circa".data.isPrefixOf l && wsPlusL fourDigits (l.drop 5)

/-- re.search of the circa pattern of rule 13.1. -/
def hasCircaWs : List Char → Bool
  | [] => false
  | c :: cs => circaWsAt (c :: cs) || hasCircaWs cs

/-- r"\d{4};\s+\w+" matching at this position. -/
def yearSemiAt (l : List Char) : Bool :=
  fourDigits l && (l.drop 4).headD ' ' = ';' && wsPlusL (headIs isWordChar) (l.drop 5)

/-- re.search of the year-semicolon pattern of rule 13.1. -/
def hasYearSemi : List Char → Bool
  | [] => false
  | c :: cs => yearSemiAt (c :: cs) || hasYearSemi cs

/-- r",\s*\d{4}" matching at this position. -/
def commaYearAt : List Char → Bool
  | c :: cs => c = ',' && afterWsL fourDigits cs
  | [] => false

/-- re.search of r",\s*\d{4}". -/
def hasCommaYear : List Char → Bool
  | [] => false
  | c :: cs => commaYearAt (c :: cs) || hasCommaYear cs

/-- r";\s*\w+" matching at this position. -/
def semiWordAt : List Char → Bool
  | c :: cs => c = ';' && afterWsL (headIs isWordChar) cs
  | [] => false

/-- re.search of r";\s*\w+". -/
def hasSemiWord : List Char → Bool
  | [] => false
  | c :: cs => semiWordAt (c :: cs) || hasSemiWord cs

/-- \w+\s+\w tail of rule 13.4 after "th". -/
def wordWsWord (l : List Char) : Bool :=
  let run := l.takeWhile isWordChar
  !run.isEmpty && wsPlusL (headIs isWordChar) (l.drop run.length)

/-- Tail of rule 13.4 after the leading digits: "th" then \s+\w+\s+\w+. -/
def thTail : List Char → Bool
  | [] => false
  | c :: cs =>
    if c.isDigit then thTail cs
    else "th".data.isPrefixOf (c :: cs) && wsPlusL wordWsWord ((c :: cs).drop 2)

/-- r"\d+th\s+\w+\s+\w+" matching at this position (never fires on an
uppercased line, kept for fidelity). -/
def thSquadronAt : List Char → Bool
  | c :: cs => c.isDigit && thTail cs
  | [] => false

/-- re.search of rule 13.4. -/
def hasThSquadron : List Char → Bool
  | [] => false
  | c :: cs => thSquadronAt (c :: cs) || hasThSquadron cs

/-- r"\d+\s+$": trailing whitespace run preceded by a digit. -/
def endsDigitWs (l : List Char) : Bool :=
  let r := l.reverse
  let ws := r.takeWhile Char.isWhitespace
  !ws.isEmpty && ((r.drop ws.length).headD ' ').isDigit

/-- r"\d+\.\d+\s+$": trailing whitespace, digits, dot, digit (read backwards). -/
def endsNumDotNumWs (l : List Char) : Bool :=
  let r := l.reverse
  let ws := r.takeWhile Char.isWhitespace
  let ds := (r.drop ws.length).takeWhile Char.isDigit
  !ws.isEmpty && !ds.isEmpty &&
    (r.drop (ws.length + ds.length)).headD ' ' = '.' &&
    (((r.drop (ws.length + ds.length)).drop 1).headD ' ').isDigit

/-- Keyword lists of rejection rules 10-15 (checked against the uppercased
line; the mixed-case entries of rules 13.3 and 13.5 can never occur there and
are kept verbatim from the source). -/
def specKeywords : List String :=
  ["WEIGHT", "DIMENSIONS", "POWERPLANT", "CEILING", "RANGE", "ARMAMENT"]

def operatorKeywords : List String := ["OPERATORS", "AIR FORCE", "NAVY", "MARINES"]

def photoKeywords : List String := ["PHOTO", "PICTURE", "IMAGE", "COVER"]

def socialKeywords : List String :=
  ["Facebook", "Instagram", "Twitter", "LinkedIn", "Youtube"]

def guardKeywords : List String :=
  ["Guard", "Wing", "Squadron", "Air Force", "National Guard"]

def copyrightKeywords : List String := ["COPYRIGHT", "AMBER", "BOOKS", "LTD", "RESEARCHER"]

def frontMatterKeywords : List String := ["INTRODUCTION", "PREFACE", "FOREWORD"]

/-- is_main_heading: decides whether a line is a Heading-1 main heading.
Direct transcription of the source: four acceptance checks returning true,
then the rejection checks 5-17, each returning false, with a final
catch-all returning false. -/
def is_main_heading (line : String) : Bool :=
  let lu := pyUpper line
  if accChapter lu.data then true
  else if accNumbered line.data then true
  else if accUpper line then true
  else if accKeyword lu then true
  else if decide (45 < line.length) then false
  else if decide (line.length < 30) then false
  else if rejRepeatWords lu.data then false
  else if hasNumericUnit line.data then false
  else if hasParenCode line.data then false
  else if containsAny lu specKeywords then false
  else if containsAny lu operatorKeywords then false
  else if hasBlockCode lu.data then false
  else if containsAny lu photoKeywords then false
  else if hasCircaWs lu.data || hasYearSemi lu.data then false
  else if hasCommaYear line.data || hasSemiWord line.data then false
  else if containsAny lu socialKeywords then false
  else if hasThSquadron lu.data && decide (line.length < 40) then false
  else if containsAny lu guardKeywords && decide (line.length < 50) then false
  else if containsAny lu copyrightKeywords then false
  else if containsAny lu frontMatterKeywords then false
  else if endsDigitWs line.data || endsNumDotNumWs line.data then false
  else if decide ((pySplitL line.data).length < 6) then false
  else false

/-! ## Characterization of the classifier -/

/-- All rejection checks and the catch-all return false, so the classifier
accepts exactly the lines matched by one of the four acceptance rules. -/
theorem is_main_heading_eq_accepts (line : String) :
    is_main_heading line =
      (accChapter (pyUpper line).data || accNumbered line.data ||
       accUpper line || accKeyword (pyUpper line)) := by
  simp only [is_main_heading]
  cases h1 : accChapter (pyUpper line).data <;>
    cases h2 : accNumbered line.data <;>
      cases h3 : accUpper line <;>
        cases h4 : accKeyword (pyUpper line) <;>
          simp [h1, h2, h3, h4, ite_self]

/-! ## Claims C1 and C4: the acceptance/rejection cascade -/

/-- C1 (counterexample). The claim states that a line matching an acceptance
predicate and a rejection predicate (here: length > 45, and the INTRODUCTION
front-matter keyword) is never classified as a heading.  This concrete line
matches the CHAPTER acceptance rule together with those two rejection rules,
yet is_main_heading classifies it as a heading. -/
theorem c1_reject_does_not_dominate :
    accChapter (pyUpper "CHAPTER 1 INTRODUCTION TO THE FLIGHT CONTROL SYSTEM").data = true ∧
    45 < ("CHAPTER 1 INTRODUCTION TO THE FLIGHT CONTROL SYSTEM" : String).length ∧
    containsAny (pyUpper "CHAPTER 1 INTRODUCTION TO THE FLIGHT CONTROL SYSTEM")
      frontMatterKeywords = true ∧
    is_main_heading "CHAPTER 1 INTRODUCTION TO THE FLIGHT CONTROL SYSTEM" = true := by
  decide

/-- C1 (amended): acceptance dominates rejection.  The four acceptance
predicates are evaluated first and any match classifies the line as a heading
even when rejection predicates also match; the rejection cascade never changes
the outcome because a line matching no acceptance predicate is rejected by the
final catch-all anyway. -/
theorem c1_accept_overrides_reject (line : String)
    (h : (accChapter (pyUpper line).data || accNumbered line.data ||
          accUpper line || accKeyword (pyUpper line)) = true) :
    is_main_heading line = true := by
  rw [is_main_heading_eq_accepts]; exact h

/-- C1 witness: the amended theorem applied at the counterexample line. -/
theorem c1_accept_overrides_reject_witness :
    is_main_heading "CHAPTER 1 INTRODUCTION TO THE FLIGHT CONTROL SYSTEM" = true :=
  c1_accept_overrides_reject "CHAPTER 1 INTRODUCTION TO THE FLIGHT CONTROL SYSTEM" (by decide)

/-- C4 (counterexample). The claim states that a line that is not fully
uppercase, has no CHAPTER/SECTION/PART-number prefix, is not a numbered long
all-caps heading and is not a known heading is never classified as a heading.
This fully lowercase 36-character line satisfies all four hypotheses and is
nevertheless classified as a heading, because the source tests
line.upper().isupper(), which holds for any line containing a letter. -/
theorem c4_lowercase_line_accepted :
    pyIsUpper ("a description of flight control laws" : String).data = false ∧
    accChapter (pyUpper "a description of flight control laws").data = false ∧
    accNumbered ("a description of flight control laws" : String).data = false ∧
    accKeyword (pyUpper "a description of flight control laws") = false ∧
    is_main_heading "a description of flight control laws" = true := by
  decide

/-- C4 (amended): a line matching none of the four acceptance predicates as
implemented is never classified as a heading — where the third predicate
requires only that the line contain at least one letter and have length in
[35,40], not that the line be fully uppercase. -/
theorem c4_no_acceptance_no_heading (line : String)
    (h1 : accChapter (pyUpper line).data = false)
    (h2 : accNumbered line.data = false)
    (h3 : accUpper line = false)
    (h4 : accKeyword (pyUpper line) = false) :
    is_main_heading line = false := by
  rw [is_main_heading_eq_accepts, h1, h2, h3, h4]; rfl

/-- C4 witness: a short ordinary line is not a heading. -/
theorem c4_no_acceptance_no_heading_witness :
    is_main_heading "hello world" = false :=
  c4_no_acceptance_no_heading "hello world" (by decide) (by decide) (by decide) (by decide)

/-! ## Enrichment heuristics -/

/-- detect_applicability: aircraft-variant keyword cascade over the uppercased
body text. -/
def detect_applicability (content : String) : String :=
  let cu := pyUpper content
  if strContains cu "ALL MODELS" || strContains cu "ALL VARIANTS" then "All Models"
  else if strContains cu "F-16A" && strContains cu "F-16B" then "F-16A/B"
  else if strContains cu "F-16C" && strContains cu "F-16D" then "F-16C/D"
  else if strContains cu "F-16A" then "F-16A"
  else if strContains cu "F-16B" then "F-16B"
  else if strContains cu "F-16C" then "F-16C"
  else if strContains cu "F-16D" then "F-16D"
  else "General"

/-- Graphics keywords of detect_graphics. -/
def graphics_keywords : List String :=
  ["FIGURE", "FIG.", "IMAGE", "DIAGRAM", "CHART", "GRAPH", "PICTURE"]

/-- detect_graphics: any graphics keyword in the uppercased content. -/
def detect_graphics (content : String) : Bool :=
  graphics_keywords.any (fun keyword => strContains (pyUpper content) keyword)

/-- The fixed domain -> module-code table (self.module_codes). -/
def module_codes : List (String × String) :=
  [("FLIGHT_CONTROL", "DMC-FC001"),
   ("ENGINE_SYSTEM", "DMC-ES002"),
   ("WEAPONS_SYSTEM", "DMC-WS003"),
   ("AVIONICS", "DMC-AV004"),
   ("MAINTENANCE", "DMC-MT005"),
   ("SAFETY", "DMC-SF006"),
   ("ELECTRICAL", "DMC-EL007"),
   ("HYDRAULIC", "DMC-HY008"),
   ("FUEL", "DMC-FL009"),
   ("LANDING", "DMC-LG010"),
   ("COCKPIT", "DMC-CP011"),
   ("RADAR", "DMC-RD012"),
   ("NAVIGATION", "DMC-NV013"),
   ("COMMUNICATION", "DMC-CM014"),
   ("EMERGENCY", "DMC-EM015"),
   ("GENERAL", "DMC-GN016")]

/-- self.module_codes.get(t, "DMC-GN016"). -/
def moduleCodeFor (t : String) : String :=
  ((module_codes.find? (fun p => p.1 == t)).map Prod.snd).getD "DMC-GN016"

/-- The ordered keyword -> domain table of detect_module_type.  The source is
an early-returning elif chain; first-match lookup over this ordered table is
the same function. -/
def domain_rules : List (List String × String) :=
  [(["FLIGHT", "CONTROL", "DIGITAL"], "FLIGHT_CONTROL"),
   (["ENGINE", "POWER", "TURBINE"], "ENGINE_SYSTEM"),
   (["WEAPON", "MISSILE", "BOMB"], "WEAPONS_SYSTEM"),
   (["AVIONICS", "COMPUTER", "SOFTWARE"], "AVIONICS"),
   (["ELECTRICAL", "ELECTRIC", "POWER"], "ELECTRICAL"),
   (["HYDRAULIC"], "HYDRAULIC"),
   (["FUEL"], "FUEL"),
   (["LANDING", "GEAR"], "LANDING"),
   (["COCKPIT", "INSTRUMENT"], "COCKPIT"),
   (["RADAR"], "RADAR"),
   (["NAVIGATION", "GPS"], "NAVIGATION"),
   (["COMMUNICATION", "RADIO"], "COMMUNICATION"),
   (["SAFETY", "EMERGENCY"], "SAFETY"),
   (["MAINTENANCE", "SERVICE", "REPAIR"], "MAINTENANCE")]

/-- One elif condition of detect_module_type: some keyword of the rule occurs
in the uppercased title. -/
def domainPred (title : String) (r : List String × String) : Bool :=
  containsAny (pyUpper title) r.1

/-- detect_module_type: domain classification of a heading; first matching
rule of the ordered elif chain wins, default GENERAL. -/
def detect_module_type (title : String) : String :=
  ((domain_rules.find? (domainPred title)).map Prod.snd).getD "GENERAL"

/-- The ordered tier table of detect_content_type: per tier, title keywords
(checked first in the source) and content keywords, both returning the same
tag, so the pair of early-returning if statements of each tier is the
disjunction below. -/
def content_type_rules : List ((List String × List String) × String) :=
  [((["PROCEDURE", "STEP", "INSTRUCTION", "MANUAL"],
     ["STEP 1", "STEP 2", "FIRST", "THEN", "NEXT", "FINALLY"]), "PROCEDURE"),
   ((["FAULT", "ERROR", "TROUBLESHOOT", "MALFUNCTION"],
     ["ERROR CODE", "FAULT CODE", "TROUBLESHOOT", "MALFUNCTION"]), "FAULT"),
   ((["PARTS", "COMPONENT", "ASSEMBLY", "SUPPLY"],
     ["PART NUMBER", "ITEM NUMBER", "QUANTITY", "REFERENCE"]), "ILLUSTRATED_PARTS_DATA"),
   ((["DESCRIPTION", "OVERVIEW", "INTRODUCTION", "SYSTEM"],
     ["SYSTEM DESCRIPTION", "OVERVIEW", "INTRODUCTION", "PURPOSE"]), "DESCRIPTION"),
   ((["MAINTENANCE", "SERVICE", "INSPECTION", "REPAIR"],
     ["MAINTENANCE", "SERVICE", "INSPECTION", "REPAIR", "SCHEDULE"]), "MAINTENANCE"),
   ((["SPECIFICATION", "TECHNICAL", "PERFORMANCE", "DATA"],
     ["SPECIFICATION", "PERFORMANCE", "TECHNICAL DATA", "CHARACTERISTICS"]), "TECHNICAL_DATA"),
   ((["SAFETY", "WARNING", "CAUTION", "HAZARD"],
     ["WARNING", "CAUTION", "SAFETY", "HAZARD", "DANGER"]), "SAFETY")]

/-- One tier condition of detect_content_type. -/
def ctPred (title content : String) (r : (List String × List String) × String) : Bool :=
  containsAny (pyUpper title) r.1.1 || containsAny (pyUpper content) r.1.2

/-- detect_content_type: tiered classification over title and content of a
section; first matching tier wins, default MAIN_HEADING_SECTION. -/
def detect_content_type (title content : String) : String :=
  ((content_type_rules.find? (ctPred title content)).map Prod.snd).getD "MAIN_HEADING_SECTION"

/-- The condition under which detect_module_type matches some domain keyword. -/
def domainKeywordHit (title : String) : Bool := domain_rules.any (domainPred title)

/-- The condition under which detect_content_type matches some tier. -/
def contentTypeHit (title content : String) : Bool :=
  content_type_rules.any (ctPred title content)

/-- The condition under which detect_applicability matches some variant token. -/
def variantTokenHit (content : String) : Bool :=
  let cu := pyUpper content
  containsAny cu ["ALL MODELS", "ALL VARIANTS", "F-16A", "F-16B", "F-16C", "F-16D"]

/-! ## Claim C9: total classifiers with default fall-through -/

/-- C9: the classification heuristics are total functions in this embedding,
and on inputs where no keyword matches they return their default category:
detect_module_type returns GENERAL, detect_content_type returns
MAIN_HEADING_SECTION, and detect_applicability returns General. -/
theorem c9_classifiers_default (title content body : String)
    (h1 : domainKeywordHit title = false)
    (h2 : contentTypeHit title content = false)
    (h3 : variantTokenHit body = false) :
    detect_module_type title = "GENERAL" ∧
    detect_content_type title content = "MAIN_HEADING_SECTION" ∧
    detect_applicability body = "General" := by
  refine ⟨?_, ?_, ?_⟩
  · have hnone : domain_rules.find? (domainPred title) = none :=
      List.find?_eq_none.mpr (List.any_eq_false.mp h1)
    simp [detect_module_type, hnone]
  · have hnone : content_type_rules.find? (ctPred title content) = none :=
      List.find?_eq_none.mpr (List.any_eq_false.mp h2)
    simp [detect_content_type, hnone]
  · simp only [variantTokenHit, containsAny, List.any_cons, List.any_nil,
      Bool.or_eq_false_iff, and_true] at h3
    obtain ⟨hAM, hAV, hA, hB, hC, hD⟩ := h3
    simp [detect_applicability, hAM, hAV, hA, hB, hC, hD]

/-- C9 witness: the defaults at a concrete keyword-free input. -/
theorem c9_classifiers_default_witness :
    detect_module_type "xyz" = "GENERAL" ∧
    detect_content_type "xyz" "qqq" = "MAIN_HEADING_SECTION" ∧
    detect_applicability "qqq" = "General" :=
  c9_classifiers_default "xyz" "qqq" "qqq" (by decide) (by decide) (by decide)

/-! ## Noise-stripping scanners (re.sub removals of clean_paragraph and friends) -/

/-- Try to match a literal followed by \w+ at the head; on success return the
suffix after the match. -/
def tryLitWordRun (lit l : List Char) : Option (List Char) :=
  if lit.isPrefixOf l then
    if ((l.drop lit.length).takeWhile isWordChar).isEmpty then none
    else some ((l.drop lit.length).drop ((l.drop lit.length).takeWhile isWordChar).length)
  else none

theorem tryLitWordRun_some_length {lit l r : List Char} (hlit : lit ≠ [])
    (h : tryLitWordRun lit l = some r) : r.length < l.length := by
  unfold tryLitWordRun at h
  split at h
  · next hpre =>
    split at h
    · exact absurd h (by simp)
    · next hrun =>
      have hle : lit.length ≤ l.length :=
        (List.isPrefixOf_iff_prefix.mp hpre).length_le
      have hrunpos : 0 < ((l.drop lit.length).takeWhile isWordChar).length := by
        cases hr : (l.drop lit.length).takeWhile isWordChar with
        | nil => rw [hr] at hrun; simp at hrun
        | cons a t => simp
      have hlitpos : 0 < lit.length := List.length_pos.mpr hlit
      simp only [Option.some.injEq] at h
      subst h
      simp only [List.length_drop]
      omega
  · exact absurd h (by simp)

/-- The alternation r"Facebook: \w+|Instagram: \w+|Twitter: \w+" at the head. -/
def socialAt (l : List Char) : Option (List Char) :=
  match tryLitWordRun "Facebook: ".data l with
  | some r => some r
  | none =>
    match tryLitWordRun "Instagram: ".data l with
    | some r => some r
    | none => tryLitWordRun "Twitter: ".data l

theorem socialAt_some_length {l r : List Char} (h : socialAt l = some r) :
    r.length < l.length := by
  unfold socialAt at h
  split at h
  · next he => cases h; exact tryLitWordRun_some_length (by decide) he
  · split at h
    · next he => cases h; exact tryLitWordRun_some_length (by decide) he
    · exact tryLitWordRun_some_length (by decide) h

/-- re.sub of the social-handle alternation by the empty string; fuel equal to
the input length always suffices (socialAt_some_length). -/
def subSocialFuel : Nat → List Char → List Char
  | _, [] => []
  | 0, l => l
  | fuel + 1, c :: cs =>
    match socialAt (c :: cs) with
    | some rest => subSocialFuel fuel rest
    | none => c :: subSocialFuel fuel cs

/-- re.sub of the social-handle alternation by the empty string. -/
def subSocialL (l : List Char) : List Char := subSocialFuel l.length l

/-- The suffix of an ISBN match after the leading digit run. -/
def isbnAfterDigits (l : List Char) : List Char :=
  (l.drop 6).drop ((l.drop 6).takeWhile Char.isDigit).length

/-- r"ISBN: \d+[-\d]*" at the head. -/
def isbnAt (l : List Char) : Option (List Char) :=
  if "ISBN: ".data.isPrefixOf l then
    if ((l.drop 6).takeWhile Char.isDigit).isEmpty then none
    else
      some ((isbnAfterDigits l).drop
        ((isbnAfterDigits l).takeWhile (fun c => c = '-' || c.isDigit)).length)
  else none

theorem isbnAt_some_length {l r : List Char} (h : isbnAt l = some r) :
    r.length < l.length := by
  unfold isbnAt at h
  split at h
  · next hpre =>
    split at h
    · exact absurd h (by simp)
    · next hrun =>
      have hle : ("ISBN: ".data).length ≤ l.length :=
        (List.isPrefixOf_iff_prefix.mp hpre).length_le
      have hrunpos : 0 < ((l.drop 6).takeWhile Char.isDigit).length := by
        cases hr : (l.drop 6).takeWhile Char.isDigit with
        | nil => rw [hr] at hrun; simp at hrun
        | cons a t => simp
      simp only [Option.some.injEq] at h
      subst h
      simp only [isbnAfterDigits, List.length_drop]
      simp only [String.data] at hle
      simp only [List.length_cons, List.length_nil] at hle
      omega
  · exact absurd h (by simp)

/-- re.sub of the ISBN pattern by the empty string; fuel equal to the input
length always suffices (isbnAt_some_length). -/
def subIsbnFuel : Nat → List Char → List Char
  | _, [] => []
  | 0, l => l
  | fuel + 1, c :: cs =>
    match isbnAt (c :: cs) with
    | some rest => subIsbnFuel fuel rest
    | none => c :: subIsbnFuel fuel cs

/-- re.sub of the ISBN pattern by the empty string. -/
def subIsbnL (l : List Char) : List Char := subIsbnFuel l.length l

/-- r"circa \d{4}" at the head. -/
def circaAt (l : List Char) : Option (List Char) :=
  if "circa ".data.isPrefixOf l && fourDigits (l.drop 6) then some ((l.drop 6).drop 4)
  else none

theorem circaAt_some_length {l r : List Char} (h : circaAt l = some r) :
    r.length < l.length := by
  unfold circaAt at h
  split at h
  · next hc =>
    have hpre : ("circa ".data).isPrefixOf l = true := by
      cases hp : ("circa ".data).isPrefixOf l
      · rw [hp] at hc; simp at hc
      · rfl
    have hle : ("circa ".data).length ≤ l.length :=
      (List.isPrefixOf_iff_prefix.mp hpre).length_le
    simp only [Option.some.injEq] at h
    subst h
    simp only [List.length_drop]
    simp only [String.data] at hle
    simp only [List.length_cons, List.length_nil] at hle
    omega
  · exact absurd h (by simp)

/-- re.sub of the circa pattern by the empty string; fuel equal to the input
length always suffices (circaAt_some_length). -/
def subCircaFuel : Nat → List Char → List Char
  | _, [] => []
  | 0, l => l
  | fuel + 1, c :: cs =>
    match circaAt (c :: cs) with
    | some rest => subCircaFuel fuel rest
    | none => c :: subCircaFuel fuel cs

/-- re.sub of the circa pattern by the empty string. -/
def subCircaL (l : List Char) : List Char := subCircaFuel l.length l

/-! ## clean_paragraph -/

/-- The single-character words exempted by clean_paragraph. -/
def turkishChars : List Char := ['ç', 'ğ', 'ı', 'ö', 'ş', 'ü', 'Ç', 'Ğ', 'I', 'Ö', 'Ş', 'Ü']

/-- Python str.isdigit (ASCII): nonempty and all digits. -/
def isDigitsW (l : List Char) : Bool := !l.isEmpty && l.all Char.isDigit

/-- The word-filter of clean_paragraph: drop single characters outside the
Turkish exemptions and purely numeric tokens shorter than four digits. -/
def keepWord (w : List Char) : Bool :=
  !(decide (w.length = 1) && !turkishChars.contains (w.headD ' ')) &&
  !(isDigitsW w && decide (w.length < 4))

/-- The normalized text of clean_paragraph before word filtering: noise
patterns stripped, whitespace collapsed, ends trimmed. -/
def cleanParaBase (text : String) : List Char :=
  pyStripL (collapseL (subCircaL (subIsbnL (subSocialL text.data))))

/-- The surviving words of clean_paragraph. -/
def cleanParaWords (text : String) : List (List Char) :=
  (pySplitL (cleanParaBase text)).filter keepWord

/-- clean_paragraph: strip noise patterns, collapse whitespace, drop short
texts, filter single-character and short numeric words, re-normalize. -/
def clean_paragraph (text : String) : String :=
  if text = "" then ""
  else if (cleanParaBase text).length < 10 then ""
  else if (pyStripL (collapseL (joinSpaceL (cleanParaWords text)))).length < 20 then ""
  else String.mk (pyStripL (collapseL (joinSpaceL (cleanParaWords text))))

/-! ## Word-level lemmas for split / join / collapse / strip -/

theorem dropWhile_eq_self_of_all {p : Char → Bool} {l : List Char}
    (h : ∀ c ∈ l, p c = false) : l.dropWhile p = l := by
  cases l with
  | nil => rfl
  | cons a t => simp [List.dropWhile_cons, h a (by simp)]

/-- Unfolding pySplitAux on a non-whitespace head. -/
theorem pySplitAux_cons_nows {c : Char} (hc : c.isWhitespace = false)
    (cs acc : List Char) : pySplitAux (c :: cs) acc = pySplitAux cs (c :: acc) := by
  conv_lhs => unfold pySplitAux
  rw [if_neg (by simp [hc])]

/-- Unfolding pySplitAux on a whitespace head with a nonempty accumulator. -/
theorem pySplitAux_cons_ws {c : Char} (hc : c.isWhitespace = true)
    (cs acc : List Char) (hacc : ¬acc.isEmpty = true) :
    pySplitAux (c :: cs) acc = acc.reverse :: pySplitAux cs [] := by
  conv_lhs => unfold pySplitAux
  rw [if_pos hc, if_neg hacc]

/-- Unfolding collapseL on a non-whitespace head. -/
theorem collapseL_cons_nows {c : Char} (hc : c.isWhitespace = false)
    (cs : List Char) : collapseL (c :: cs) = c :: collapseL cs := by
  conv_lhs => unfold collapseL
  rw [if_neg (by simp [hc])]

/-- Unfolding collapseSkip on a non-whitespace head. -/
theorem collapseSkip_cons_nows {c : Char} (hc : c.isWhitespace = false)
    (cs : List Char) : collapseSkip (c :: cs) = c :: collapseL cs := by
  conv_lhs => unfold collapseSkip
  rw [if_neg (by simp [hc])]

/-- Words produced by Python str.split() are nonempty and whitespace-free. -/
theorem pySplitAux_mem (l : List Char) :
    ∀ acc, (∀ c ∈ acc, c.isWhitespace = false) →
      ∀ w ∈ pySplitAux l acc, w ≠ [] ∧ ∀ c ∈ w, c.isWhitespace = false := by
  induction l with
  | nil =>
    intro acc hacc w hw
    unfold pySplitAux at hw
    split at hw
    · simp at hw
    · next hne =>
      simp only [List.mem_singleton] at hw
      subst hw
      refine ⟨?_, ?_⟩
      · simp only [ne_eq, List.reverse_eq_nil_iff]
        intro hnil; rw [hnil] at hne; simp at hne
      · intro c hc; exact hacc c (List.mem_reverse.mp hc)
  | cons a t ih =>
    intro acc hacc w hw
    by_cases ha : a.isWhitespace
    · by_cases hacce : acc.isEmpty
      · have hacce' : acc = [] := by
          cases acc with
          | nil => rfl
          | cons x xs => simp at hacce
        subst hacce'
        unfold pySplitAux at hw
        rw [if_pos ha, if_pos (by simp)] at hw
        exact ih [] (by simp) w hw
      · rw [pySplitAux_cons_ws ha t acc hacce] at hw
        simp only [List.mem_cons] at hw
        rcases hw with hw | hw
        · subst hw
          refine ⟨?_, ?_⟩
          · simp only [ne_eq, List.reverse_eq_nil_iff]
            intro hnil; subst hnil; simp at hacce
          · intro c hc; exact hacc c (List.mem_reverse.mp hc)
        · exact ih [] (by simp) w hw
    · rw [pySplitAux_cons_nows (Bool.eq_false_iff.mpr ha) t acc] at hw
      refine ih (a :: acc) ?_ w hw
      intro c hc
      rcases List.mem_cons.mp hc with h | h
      · subst h; exact Bool.eq_false_iff.mpr ha
      · exact hacc c h

theorem pySplitL_mem {l : List Char} {w : List Char} (hw : w ∈ pySplitL l) :
    w ≠ [] ∧ ∀ c ∈ w, c.isWhitespace = false :=
  pySplitAux_mem l [] (by simp) w hw

/-- Feeding a whitespace-free word into the split accumulator. -/
theorem pySplitAux_append (w : List Char) (hw : ∀ c ∈ w, c.isWhitespace = false) :
    ∀ l acc, pySplitAux (w ++ l) acc = pySplitAux l (w.reverse ++ acc) := by
  induction w with
  | nil => intro l acc; simp
  | cons c t ih =>
    intro l acc
    have hc : c.isWhitespace = false := hw c (by simp)
    have ht : ∀ d ∈ t, d.isWhitespace = false := fun d hd => hw d (by simp [hd])
    simp only [List.cons_append]
    rw [pySplitAux_cons_nows hc (t ++ l) acc, ih ht l (c :: acc)]
    simp [List.append_assoc]

/-- joinSpaceL on a cons, exposing the head word. -/
theorem joinSpace_cons (v : List Char) (rest : List (List Char)) :
    joinSpaceL (v :: rest) = v ++ (if rest.isEmpty then [] else ' ' :: joinSpaceL rest) := by
  cases rest <;> simp [joinSpaceL]

/-- Splitting the space-join of nonempty whitespace-free words recovers them. -/
theorem pySplit_joinSpace :
    ∀ ws : List (List Char),
      (∀ w ∈ ws, w ≠ [] ∧ ∀ c ∈ w, c.isWhitespace = false) →
      pySplitL (joinSpaceL ws) = ws := by
  intro ws
  induction ws with
  | nil => intro _; rfl
  | cons w rest ih =>
    intro h
    obtain ⟨hwne, hwnows⟩ := h w (by simp)
    cases rest with
    | nil =>
      show pySplitL (joinSpaceL [w]) = [w]
      have hJ : joinSpaceL [w] = w ++ [] := by simp [joinSpaceL]
      rw [hJ]
      unfold pySplitL
      rw [pySplitAux_append w hwnows [] []]
      unfold pySplitAux
      rw [if_neg (by simp [hwne])]
      simp
    | cons v rest2 =>
      have hJ : joinSpaceL (w :: v :: rest2) = w ++ ' ' :: joinSpaceL (v :: rest2) := by
        simp [joinSpaceL]
      rw [hJ]
      unfold pySplitL
      rw [pySplitAux_append w hwnows (' ' :: joinSpaceL (v :: rest2)) []]
      rw [pySplitAux_cons_ws (by simp) (joinSpaceL (v :: rest2)) (w.reverse ++ [])
        (by simp [hwne])]
      simp only [List.append_nil, List.reverse_reverse]
      rw [show pySplitAux (joinSpaceL (v :: rest2)) [] = pySplitL (joinSpaceL (v :: rest2))
        from rfl]
      rw [ih (fun u hu => h u (by simp [hu]))]

/-- collapseL is the identity on whitespace-free text. -/
theorem collapseL_eq_self {l : List Char} (h : ∀ c ∈ l, c.isWhitespace = false) :
    collapseL l = l := by
  induction l with
  | nil => rfl
  | cons a t ih =>
    rw [collapseL_cons_nows (h a (by simp)) t]
    rw [ih (fun c hc => h c (by simp [hc]))]

/-- collapseL distributes over a whitespace-free prefix. -/
theorem collapseL_append {w : List Char} (h : ∀ c ∈ w, c.isWhitespace = false) :
    ∀ l, collapseL (w ++ l) = w ++ collapseL l := by
  induction w with
  | nil => intro l; simp
  | cons a t ih =>
    intro l
    simp only [List.cons_append]
    rw [collapseL_cons_nows (h a (by simp)) (t ++ l)]
    rw [ih (fun c hc => h c (by simp [hc])) l]

/-- collapseL fixes the space-join of nonempty whitespace-free words. -/
theorem collapse_joinSpace :
    ∀ ws : List (List Char),
      (∀ w ∈ ws, w ≠ [] ∧ ∀ c ∈ w, c.isWhitespace = false) →
      collapseL (joinSpaceL ws) = joinSpaceL ws := by
  intro ws
  induction ws with
  | nil => intro _; rfl
  | cons w rest ih =>
    intro h
    obtain ⟨hwne, hwnows⟩ := h w (by simp)
    cases rest with
    | nil =>
      show collapseL (joinSpaceL [w]) = joinSpaceL [w]
      simp only [joinSpaceL]
      exact collapseL_eq_self hwnows
    | cons v rest2 =>
      have hJ : joinSpaceL (w :: v :: rest2) = w ++ ' ' :: joinSpaceL (v :: rest2) := by
        simp [joinSpaceL]
      rw [hJ, collapseL_append hwnows]
      obtain ⟨hvne, hvnows⟩ := h v (by simp)
      obtain ⟨c, t, hv⟩ : ∃ c t, v = c :: t := by
        cases v with
        | nil => exact absurd rfl hvne
        | cons c t => exact ⟨c, t, rfl⟩
      have hshape : joinSpaceL (v :: rest2) =
          c :: (t ++ if rest2.isEmpty then [] else ' ' :: joinSpaceL rest2) := by
        rw [joinSpace_cons, hv]; rfl
      have hcnows : c.isWhitespace = false := by
        apply hvnows; rw [hv]; simp
      have hIH := ih (fun u hu => h u (by simp [hu]))
      congr 1
      have hcol : collapseL (' ' :: joinSpaceL (v :: rest2)) =
          ' ' :: collapseSkip (joinSpaceL (v :: rest2)) := by
        conv_lhs => unfold collapseL
        rw [if_pos (by simp)]
      rw [hcol, hshape, collapseSkip_cons_nows hcnows]
      rw [hshape] at hIH
      rw [collapseL_cons_nows hcnows] at hIH
      rw [hIH]

/-- The space-join of nonempty whitespace-free words starts with a
non-whitespace character, so a leading dropWhile fixes it. -/
theorem dropWhile_joinSpace
    (ws : List (List Char))
    (h : ∀ w ∈ ws, w ≠ [] ∧ ∀ c ∈ w, c.isWhitespace = false) :
    (joinSpaceL ws).dropWhile Char.isWhitespace = joinSpaceL ws := by
  cases ws with
  | nil => rfl
  | cons v rest =>
    obtain ⟨hvne, hvnows⟩ := h v (by simp)
    obtain ⟨c, t, hv⟩ : ∃ c t, v = c :: t := by
      cases v with
      | nil => exact absurd rfl hvne
      | cons c t => exact ⟨c, t, rfl⟩
    have hshape : joinSpaceL (v :: rest) =
        c :: (t ++ if rest.isEmpty then [] else ' ' :: joinSpaceL rest) := by
      rw [joinSpace_cons, hv]; rfl
    rw [hshape, List.dropWhile_cons]
    rw [if_neg (by simp [hvnows c (by rw [hv]; simp)])]

/-- The space-join of nonempty whitespace-free words ends with a
non-whitespace character, so a trailing dropWhile (on the reverse) fixes it. -/
theorem reverse_dropWhile_joinSpace :
    ∀ ws : List (List Char),
      (∀ w ∈ ws, w ≠ [] ∧ ∀ c ∈ w, c.isWhitespace = false) →
      (joinSpaceL ws).reverse.dropWhile Char.isWhitespace = (joinSpaceL ws).reverse := by
  intro ws
  induction ws with
  | nil => intro _; rfl
  | cons w rest ih =>
    intro h
    obtain ⟨hwne, hwnows⟩ := h w (by simp)
    cases rest with
    | nil =>
      show (joinSpaceL [w]).reverse.dropWhile Char.isWhitespace = (joinSpaceL [w]).reverse
      simp only [joinSpaceL]
      exact dropWhile_eq_self_of_all
        (fun ch hc => hwnows ch (List.mem_reverse.mp hc))
    | cons v rest2 =>
      have hJ : joinSpaceL (w :: v :: rest2) = w ++ ' ' :: joinSpaceL (v :: rest2) := by
        simp [joinSpaceL]
      have hIH := ih (fun u hu => h u (by simp [hu]))
      have hJne : joinSpaceL (v :: rest2) ≠ [] := by
        obtain ⟨hvne, -⟩ := h v (by simp)
        obtain ⟨c, t, hv⟩ : ∃ c t, v = c :: t := by
          cases v with
          | nil => exact absurd rfl hvne
          | cons c t => exact ⟨c, t, rfl⟩
        rw [joinSpace_cons, hv]
        simp
      obtain ⟨c, t, hrev⟩ : ∃ c t, (joinSpaceL (v :: rest2)).reverse = c :: t := by
        cases hr : (joinSpaceL (v :: rest2)).reverse with
        | nil => exact absurd (List.reverse_eq_nil_iff.mp hr) hJne
        | cons c t => exact ⟨c, t, rfl⟩
      have hcfalse : c.isWhitespace = false := by
        rw [hrev, List.dropWhile_cons] at hIH
        by_cases hc : c.isWhitespace
        · rw [if_pos hc] at hIH
          have hle : (t.dropWhile Char.isWhitespace).length ≤ t.length :=
            (List.dropWhile_suffix Char.isWhitespace).sublist.length_le
          have := congrArg List.length hIH
          simp only [List.length_cons] at this
          omega
        · exact Bool.eq_false_iff.mpr hc
      rw [hJ, List.reverse_append, List.reverse_cons]
      rw [hrev]
      simp only [List.nil_append, List.cons_append]
      rw [List.dropWhile_cons, if_neg (by simp [hcfalse])]

/-- pyStripL fixes the space-join of nonempty whitespace-free words. -/
theorem pyStrip_joinSpace
    (ws : List (List Char))
    (h : ∀ w ∈ ws, w ≠ [] ∧ ∀ c ∈ w, c.isWhitespace = false) :
    pyStripL (joinSpaceL ws) = joinSpaceL ws := by
  unfold pyStripL
  rw [dropWhile_joinSpace ws h, reverse_dropWhile_joinSpace ws h, List.reverse_reverse]

/-! ## Claim C10: clean_paragraph deletes single-character and short numeric words -/

/-- C10: every word of a paragraph emitted by clean_paragraph is neither a
standalone single character outside the Turkish-letter exemptions nor a purely
numeric token of fewer than four digits. -/
theorem c10_clean_paragraph_word_filter (t w : String)
    (hw : w ∈ pySplitS (clean_paragraph t)) :
    (w.length = 1 → turkishChars.contains (w.data.headD ' ') = true) ∧
    ¬(isDigitsW w.data = true ∧ w.length < 4) := by
  unfold clean_paragraph at hw
  split at hw
  · simp [pySplitS, pySplitL, pySplitAux] at hw
  split at hw
  · simp [pySplitS, pySplitL, pySplitAux] at hw
  split at hw
  · simp [pySplitS, pySplitL, pySplitAux] at hw
  · have hWmem : ∀ u ∈ cleanParaWords t, u ≠ [] ∧ ∀ c ∈ u, c.isWhitespace = false := by
      intro u hu
      exact pySplitL_mem (List.mem_filter.mp hu).1
    have hcol := collapse_joinSpace (cleanParaWords t) hWmem
    have hstr := pyStrip_joinSpace (cleanParaWords t) hWmem
    rw [hcol, hstr] at hw
    have hsplit : pySplitL (joinSpaceL (cleanParaWords t)) = cleanParaWords t :=
      pySplit_joinSpace _ hWmem
    simp only [pySplitS] at hw
    rw [hsplit] at hw
    obtain ⟨u, hu, huw⟩ := List.mem_map.mp hw
    have hkeep : keepWord u = true := (List.mem_filter.mp hu).2
    simp only [keepWord, Bool.and_eq_true, Bool.not_eq_true', Bool.and_eq_false_iff,
      decide_eq_false_iff_not, Bool.not_eq_false'] at hkeep
    obtain ⟨hk1, hk2⟩ := hkeep
    subst huw
    have hdata : (String.mk u).data = u := rfl
    have hlen : (String.mk u).length = u.length := rfl
    constructor
    · intro h1
      rw [hlen] at h1
      rw [hdata]
      rcases hk1 with hk | hk
      · exact absurd h1 hk
      · exact hk
    · intro hcon
      obtain ⟨hdig, hshort⟩ := hcon
      rw [hdata] at hdig
      rw [hlen] at hshort
      rcases hk2 with hk | hk
      · rw [hdig] at hk; simp at hk
      · exact absurd hshort (by simpa using hk)

/-- C10 witness: the theorem applied to a concrete paragraph and word. -/
theorem c10_clean_paragraph_word_filter_witness :
    ("zz" : String).length ≠ 1 ∧ isDigitsW ("zz" : String).data = false ∧
    ¬(isDigitsW ("zz" : String).data = true ∧ ("zz" : String).length < 4) :=
  ⟨by decide, by decide,
    (c10_clean_paragraph_word_filter
      "zz plus other words making length big enough ok" "zz" (by decide)).2⟩

/-! ## create_content_summary -/

/-- The sentence-splitting class [.!?] of create_content_summary. -/
def isSentencePunct (c : Char) : Bool := c = '.' || c = '!' || c = '?'

mutual
/-- re.split r"[.!?]+": collecting a piece (reversed accumulator). -/
def splitPunctAcc : List Char → List Char → List (List Char)
  | [], acc => [acc.reverse]
  | c :: cs, acc =>
    if isSentencePunct c then acc.reverse :: skipPunct cs
    else splitPunctAcc cs (c :: acc)
/-- re.split r"[.!?]+": inside a separator run. -/
def skipPunct : List Char → List (List Char)
  | [] => [[]]
  | c :: cs => if isSentencePunct c then skipPunct cs else splitPunctAcc cs [c]
end

/-- re.split r"[.!?]+" on a String. -/
def splitSentences (content : String) : List String :=
  (splitPunctAcc content.data []).map String.mk

/-- re.findall r"\[PAGE_(\d+)\]": captured digit groups, leftmost
non-overlapping; fuel equal to the input length always suffices. -/
def findPageNumsFuel : Nat → List Char → List String
  | _, [] => []
  | 0, _ => []
  | fuel + 1, c :: cs =>
    if "[PAGE_".data.isPrefixOf (c :: cs) then
      let r := (c :: cs).drop 6
      let run := r.takeWhile Char.isDigit
      if !run.isEmpty && (r.drop run.length).headD ' ' = ']' then
        String.mk run :: findPageNumsFuel fuel ((r.drop run.length).drop 1)
      else findPageNumsFuel fuel cs
    else findPageNumsFuel fuel cs

/-- re.findall r"\[PAGE_(\d+)\]". -/
def findPageNums (l : List Char) : List String := findPageNumsFuel l.length l

/-- Python string comparison: lexicographic by code point. -/
def lexLt : List Char → List Char → Bool
  | [], [] => false
  | [], _ :: _ => true
  | _ :: _, [] => false
  | a :: as, b :: bs => if a < b then true else if b < a then false else lexLt as bs

/-- Insertion into a lexicographically sorted list of strings. -/
def insertSorted (s : String) : List String → List String
  | [] => [s]
  | x :: xs => if lexLt s.data x.data then s :: x :: xs else x :: insertSorted s xs

/-- Python sorted() on strings (insertion sort; applied to distinct values). -/
def sortStrings : List String → List String
  | [] => []
  | x :: xs => insertSorted x (sortStrings xs)

/-- The "Pages: a-b" clause: present when a [PAGE_ marker is found; the page
numbers are deduplicated and sorted as strings (hence lexicographically). -/
def pageClause (content : String) : Option String :=
  if strContains content "[PAGE_" then
    if !(findPageNums content.data).isEmpty then
      some ("Pages: " ++ (sortStrings (findPageNums content.data).dedup).headD "" ++ "-" ++
        (sortStrings (findPageNums content.data).dedup).getLastD "")
    else none
  else none

/-- The technical terms collected by create_content_summary, in source order. -/
def summaryTech (content : String) : List String :=
  (if strContains content "F-16" then ["F-16"] else []) ++
  (if strContains content "USAF" then ["USAF"] else []) ++
  (if strContains (pyLower content) "squadron" then ["Squadron"] else []) ++
  (if strContains (pyLower content) "aircraft" then ["Aircraft"] else [])

/-- The "Technical: ..." clause. -/
def techClause (content : String) : Option String :=
  if !(summaryTech content).isEmpty then
    some ("Technical: " ++ String.intercalate ", " (summaryTech content))
  else none

/-- The coarse content-type label of create_content_summary. -/
def summaryType (content : String) : String :=
  if strContains (pyLower content) "procedure" then "Procedures"
  else if strContains (pyLower content) "specification" then "Specifications"
  else if strContains (pyLower content) "operator" then "Operators"
  else if strContains (pyLower content) "image" || strContains (pyLower content) "photo" then
    "Images"
  else "General Information"

/-- The first-sentence loop of create_content_summary: the first sentence
whose stripped length is strictly between 30 and 150 and which survives
social/ISBN cleanup nonempty. -/
def findDesc : List String → Option String
  | [] => none
  | s :: rest =>
    if decide (30 < (pyStripS s).length) && decide ((pyStripS s).length < 150) then
      if !(pyStripL (collapseL (subIsbnL (subSocialL (pyStripS s).data)))).isEmpty then
        some ("Description: " ++
          String.mk (pyStripL (collapseL (subIsbnL (subSocialL (pyStripS s).data)))))
      else findDesc rest
    else findDesc rest

/-- The "Description: ..." clause. -/
def descClause (content : String) : Option String := findDesc (splitSentences content)

/-- The summary_parts list of create_content_summary, in source append order:
pages, technical terms, type (always present), description. -/
def summaryParts (content : String) : List String :=
  (pageClause content).toList ++ (techClause content).toList ++
  ["Type: " ++ summaryType content] ++ (descClause content).toList

/-- create_content_summary: at most four " | "-joined clauses; empty content
yields a fixed fallback string. -/
def create_content_summary (content : String) : String :=
  if content = "" then "No content available"
  else String.intercalate " | " ((summaryParts content).take 4)

/-! ## Claim C8: structure of the generated summary -/

/-- findDesc only returns the Description clause of a sentence from its input
whose stripped length lies strictly between 30 and 150. -/
theorem findDesc_spec :
    ∀ (ss : List String) (d : String), findDesc ss = some d →
      ∃ s ∈ ss, 30 < (pyStripS s).length ∧ (pyStripS s).length < 150 ∧
        d = "Description: " ++
          String.mk (pyStripL (collapseL (subIsbnL (subSocialL (pyStripS s).data)))) := by
  intro ss
  induction ss with
  | nil => intro d hd; simp [findDesc] at hd
  | cons s rest ih =>
    intro d hd
    unfold findDesc at hd
    split at hd
    · next hrange =>
      split at hd
      · simp only [Option.some.injEq] at hd
        subst hd
        simp only [Bool.and_eq_true, decide_eq_true_eq] at hrange
        exact ⟨s, by simp, hrange.1, hrange.2, rfl⟩
      · obtain ⟨u, hu, h1, h2, h3⟩ := ih d hd
        exact ⟨u, by simp [hu], h1, h2, h3⟩
    · obtain ⟨u, hu, h1, h2, h3⟩ := ih d hd
      exact ⟨u, by simp [hu], h1, h2, h3⟩

/-- C8 (amended): for nonempty content the summary is the " | "-join (not a
semicolon join) of at most four clauses in the fixed order pages, technical
terms, type (always present), description; the pages and technical clauses are
omitted exactly when their source data is absent, and the description clause
comes from a sentence whose stripped length lies strictly between 30 and 150
characters (not the closed-open interval [30,150) of the claim). -/
theorem c8_summary_structure (content : String) (h : content ≠ "") :
    create_content_summary content = String.intercalate " | " (summaryParts content) ∧
    summaryParts content =
      (pageClause content).toList ++ (techClause content).toList ++
      ["Type: " ++ summaryType content] ++ (descClause content).toList ∧
    (summaryParts content).length ≤ 4 ∧
    ((pageClause content).isSome ↔
      strContains content "[PAGE_" = true ∧ findPageNums content.data ≠ []) ∧
    ((techClause content).isSome ↔ summaryTech content ≠ []) ∧
    (∀ d, descClause content = some d →
      ∃ s ∈ splitSentences content,
        30 < (pyStripS s).length ∧ (pyStripS s).length < 150 ∧
        d = "Description: " ++
          String.mk (pyStripL (collapseL (subIsbnL (subSocialL (pyStripS s).data))))) := by
  have hlen : (summaryParts content).length ≤ 4 := by
    unfold summaryParts
    cases pageClause content <;> cases techClause content <;> cases descClause content <;>
      simp [Option.toList]
  refine ⟨?_, rfl, hlen, ?_, ?_, ?_⟩
  · unfold create_content_summary
    rw [if_neg h, List.take_of_length_le hlen]
  · cases h1 : strContains content "[PAGE_"
    · simp [pageClause, h1]
    · cases h2 : (findPageNums content.data).isEmpty
      · have h2' : findPageNums content.data ≠ [] := by
          intro hnil; rw [hnil] at h2; simp at h2
        simp [pageClause, h1, h2, h2']
      · have h2' : findPageNums content.data = [] := by
          cases hf : findPageNums content.data with
          | nil => rfl
          | cons a t => rw [hf] at h2; simp at h2
        simp [pageClause, h1, h2, h2']
  · cases h1 : (summaryTech content).isEmpty
    · have h1' : summaryTech content ≠ [] := by
        intro hnil; rw [hnil] at h1; simp at h1
      simp [techClause, h1, h1']
    · have h1' : summaryTech content = [] := by
        cases hf : summaryTech content with
        | nil => rfl
        | cons a t => rw [hf] at h1; simp at h1
      simp [techClause, h1, h1']
  · intro d hd
    exact findDesc_spec (splitSentences content) d hd

/-- C8 witness: the amended theorem applied at concrete content. -/
theorem c8_summary_structure_witness :
    create_content_summary "aircraft procedure detail okay. this second sentence is long enough to pass." =
      String.intercalate " | "
        (summaryParts "aircraft procedure detail okay. this second sentence is long enough to pass.") :=
  (c8_summary_structure
    "aircraft procedure detail okay. this second sentence is long enough to pass."
    (by decide)).1

/-- C8 (counterexample). The claim states the summary clauses are joined by
semicolons and that the description clause is the first sentence whose cleaned
length lies in [30,150).  For this concrete content the summary joins three
clauses with " | " and contains no semicolon at all, and the first sentence —
whose stripped length is exactly 30, inside the claimed interval — is skipped
in favor of the second sentence. -/
theorem c8_counterexample :
    create_content_summary
        "aircraft procedure detail okay. this second sentence is long enough to pass." =
      "Technical: Aircraft | Type: Procedures | Description: this second sentence is long enough to pass" ∧
    (create_content_summary
        "aircraft procedure detail okay. this second sentence is long enough to pass.").data.contains ';' = false ∧
    (pyStripS "aircraft procedure detail okay").length = 30 ∧
    strContains
      (create_content_summary
        "aircraft procedure detail okay. this second sentence is long enough to pass.")
      "aircraft procedure detail okay" = false := by
  decide

/-! ## Sections and the Section Merger -/

/-- The section record assembled by parse_main_headings_only (the dict pushed
into the sections list). -/
structure PSection where
  title : String
  content : String
  module_code : String
  start_page : Int
  end_page : Int
  section_type : String
  page_count : Int
  content_summary : String
  applicability : String
  has_graphics : Bool
  deriving DecidableEq, Repr

/-- Absorbing a short section into the current one (the body of the merge
loop): the content grows by a blank separator line, the short section's title
line and its content; end_page, has_graphics and content_summary are updated;
title, start_page, module_code, section_type and applicability are untouched. -/
def absorb (cur s : PSection) : PSection :=
  { cur with
    content := cur.content ++ "\n\n" ++ s.title ++ "\n" ++ s.content
    end_page := s.end_page
    has_graphics := cur.has_graphics || s.has_graphics
    content_summary :=
      create_content_summary (cur.content ++ "\n\n" ++ s.title ++ "\n" ++ s.content) }

/-- The merge loop of merge_short_sections over the sections after the first,
carrying the current section. -/
def mergeGo (cur : PSection) : List PSection → List PSection
  | [] => [cur]
  | s :: rest =>
    if s.end_page - s.start_page < 1 then mergeGo (absorb cur s) rest
    else cur :: mergeGo s rest

/-- merge_short_sections: fold sections spanning less than one page into the
preceding section; lists of at most one section are returned unchanged. -/
def merge_short_sections (sections : List PSection) : List PSection :=
  match sections with
  | [] => []
  | [s] => [s]
  | s :: rest => mergeGo s rest

/-- Section fixture used by concrete counterexamples and witnesses, filling
the derived fields the way parse_main_headings_only does. -/
def mkSec (t c : String) (sp ep : Int) : PSection :=
  { title := t, content := c, module_code := "DMC-GN016", start_page := sp, end_page := ep,
    section_type := "GENERAL", page_count := ep - sp + 1,
    content_summary := create_content_summary c,
    applicability := detect_applicability c, has_graphics := detect_graphics c }

/-- The body lines of a section (its content split at newlines). -/
def sectionLines (s : PSection) : List (List Char) := splitNl s.content.data

/-- The concatenation of all sections' body lines. -/
def bodyLinesAll (ss : List PSection) : List (List Char) := (ss.map sectionLines).flatten

/-- The plain concatenation of all sections' body content. -/
def allContent (ss : List PSection) : String := String.join (ss.map PSection.content)

/-! ## Lemmas about splitNl and the merger -/

theorem splitNl_ne_nil : ∀ l : List Char, splitNl l ≠ [] := by
  intro l
  cases l with
  | nil => simp [splitNl]
  | cons c cs =>
    unfold splitNl
    split
    · simp
    · cases splitNl cs <;> simp

theorem splitNl_cons_newline (cs : List Char) :
    splitNl ('\n' :: cs) = [] :: splitNl cs := by
  conv_lhs => unfold splitNl
  rw [if_pos rfl]

theorem splitNl_append_newline :
    ∀ a b : List Char, splitNl (a ++ '\n' :: b) = splitNl a ++ splitNl b := by
  intro a b
  induction a with
  | nil => simp [splitNl_cons_newline, splitNl]
  | cons c cs ih =>
    by_cases hc : c = '\n'
    · subst hc
      rw [List.cons_append, splitNl_cons_newline, splitNl_cons_newline, ih]
      rfl
    · obtain ⟨h, t, hcs⟩ : ∃ h t, splitNl cs = h :: t := by
        cases hsp : splitNl cs with
        | nil => exact absurd hsp (splitNl_ne_nil cs)
        | cons h t => exact ⟨h, t, rfl⟩
      have hmid : splitNl (cs ++ '\n' :: b) = h :: (t ++ splitNl b) := by
        rw [ih, hcs]; rfl
      have h1 : splitNl (c :: (cs ++ '\n' :: b)) = (c :: h) :: (t ++ splitNl b) := by
        conv_lhs => unfold splitNl
        rw [if_neg hc, hmid]
      have h2 : splitNl (c :: cs) = (c :: h) :: t := by
        conv_lhs => unfold splitNl
        rw [if_neg hc, hcs]
      rw [List.cons_append, h1, h2]
      rfl

/-- The data of a String append is the append of the data. -/
theorem string_data_append (s t : String) : (s ++ t).data = s.data ++ t.data := rfl

/-- The lines of an absorbed section: the current lines, a blank separator
line, the absorbed title's lines, then the absorbed content's lines. -/
theorem sectionLines_absorb (cur s : PSection) :
    sectionLines (absorb cur s) =
      sectionLines cur ++ ([] :: splitNl s.title.data) ++ sectionLines s := by
  unfold sectionLines absorb
  show splitNl (cur.content ++ "\n\n" ++ s.title ++ "\n" ++ s.content).data = _
  have hdata : (cur.content ++ "\n\n" ++ s.title ++ "\n" ++ s.content).data =
      cur.content.data ++ '\n' :: '\n' :: (s.title.data ++ '\n' :: s.content.data) := by
    simp [string_data_append]
  rw [hdata]
  rw [splitNl_append_newline cur.content.data ('\n' :: (s.title.data ++ '\n' :: s.content.data))]
  rw [splitNl_cons_newline]
  rw [splitNl_append_newline s.title.data s.content.data]
  simp

/-- No body line is dropped by the merge loop: the lines before are a sublist
of the lines after. -/
theorem mergeGo_lines (rest : List PSection) :
    ∀ cur, List.Sublist (sectionLines cur ++ (rest.map sectionLines).flatten)
      (((mergeGo cur rest).map sectionLines).flatten) := by
  induction rest with
  | nil => intro cur; simp [mergeGo]
  | cons s rest ih =>
    intro cur
    unfold mergeGo
    split
    · have habs : List.Sublist (sectionLines cur ++ sectionLines s)
          (sectionLines (absorb cur s)) := by
        rw [sectionLines_absorb cur s, List.append_assoc]
        exact (List.sublist_append_right _ _).append_left (sectionLines cur)
      have step1 := habs.append_right ((rest.map sectionLines).flatten)
      have step2 := ih (absorb cur s)
      have := step1.trans step2
      simpa [List.append_assoc] using this
    · simp only [List.map_cons, List.flatten_cons]
      have := (ih s).append_left (sectionLines cur)
      simpa [List.append_assoc] using this

/-! ## Claim C2: merge conservation -/

/-- C2 (amended): the merger never drops or duplicates body lines — the
concatenated body lines before the merge form a sublist (in order) of the
concatenated body lines after it — but the concatenations are not equal in
general, because absorbing inserts the absorbed section's title line and a
blank separator line into the absorbing section's body. -/
theorem c2_merge_preserves_lines (ss : List PSection) :
    List.Sublist (bodyLinesAll ss) (bodyLinesAll (merge_short_sections ss)) := by
  match ss with
  | [] => exact List.Sublist.refl _
  | [s] => exact List.Sublist.refl _
  | s :: s2 :: rest =>
    show List.Sublist (bodyLinesAll (s :: s2 :: rest)) (bodyLinesAll (mergeGo s (s2 :: rest)))
    unfold bodyLinesAll
    simpa using mergeGo_lines (s2 :: rest) s

/-- C2 (counterexample). The claim states the concatenation of all body
content is unchanged by the merge.  For these two concrete sections (the
second spans less than one page and is absorbed) the merged body additionally
contains the absorbed section's title line and separator newlines, so the
concatenations differ. -/
theorem c2_counterexample :
    allContent (merge_short_sections
      [mkSec "CHAPTER 1 OVERVIEW" "alpha line" 1 2,
       mkSec "CHAPTER 2 DETAILS" "beta line" 3 3]) ≠
    allContent
      [mkSec "CHAPTER 1 OVERVIEW" "alpha line" 1 2,
       mkSec "CHAPTER 2 DETAILS" "beta line" 3 3] := by
  decide

/-! ## Claim C6: merge idempotence and page spans -/

theorem mergeGo_ne_nil (rest : List PSection) : ∀ cur, mergeGo cur rest ≠ [] := by
  induction rest with
  | nil => intro cur; simp [mergeGo]
  | cons s r ih =>
    intro cur
    unfold mergeGo
    split
    · exact ih (absorb cur s)
    · simp

/-- If every section after the first spans at least one page, the merge loop
is the identity. -/
theorem mergeGo_eq_self (rest : List PSection) :
    ∀ cur, (∀ s ∈ rest, 1 ≤ s.end_page - s.start_page) → mergeGo cur rest = cur :: rest := by
  induction rest with
  | nil => intro cur _; rfl
  | cons s r ih =>
    intro cur h
    unfold mergeGo
    rw [if_neg (by have := h s (by simp); omega)]
    rw [ih s (fun u hu => h u (by simp [hu]))]

/-- Under non-decreasing end pages, the merge loop started from a section
spanning at least one page produces only sections spanning at least one
page. -/
theorem mergeGo_spans_of_good (rest : List PSection) :
    ∀ cur, List.Chain' (fun a b => a.end_page ≤ b.end_page) (cur :: rest) →
      1 ≤ cur.end_page - cur.start_page →
      ∀ u ∈ mergeGo cur rest, 1 ≤ u.end_page - u.start_page := by
  induction rest with
  | nil =>
    intro cur _ hcur u hu
    simp only [mergeGo, List.mem_singleton] at hu
    subst hu; exact hcur
  | cons s r ih =>
    intro cur hchain hcur u hu
    have hrel : cur.end_page ≤ s.end_page := (List.chain'_cons.mp hchain).1
    have hrest : List.Chain' (fun a b => a.end_page ≤ b.end_page) (s :: r) :=
      (List.chain'_cons.mp hchain).2
    unfold mergeGo at hu
    split at hu
    · have hchain2 : List.Chain' (fun a b => a.end_page ≤ b.end_page) (absorb cur s :: r) := by
        cases r with
        | nil => simp
        | cons v r2 =>
          rw [List.chain'_cons]
          exact ⟨(List.chain'_cons.mp hrest).1, (List.chain'_cons.mp hrest).2⟩
      have hcur2 : 1 ≤ (absorb cur s).end_page - (absorb cur s).start_page := by
        simp only [absorb]
        omega
      exact ih (absorb cur s) hchain2 hcur2 u hu
    · next hspan =>
      rcases List.mem_cons.mp hu with hu | hu
      · subst hu; exact hcur
      · exact ih s hrest (by omega) u hu

/-- Under non-decreasing end pages, every section after the first one produced
by the merge loop spans at least one page. -/
theorem mergeGo_tail_spans (rest : List PSection) :
    ∀ cur, List.Chain' (fun a b => a.end_page ≤ b.end_page) (cur :: rest) →
      ∀ u ∈ (mergeGo cur rest).tail, 1 ≤ u.end_page - u.start_page := by
  induction rest with
  | nil => intro cur _ u hu; simp [mergeGo] at hu
  | cons s r ih =>
    intro cur hchain u hu
    have hrest : List.Chain' (fun a b => a.end_page ≤ b.end_page) (s :: r) :=
      (List.chain'_cons.mp hchain).2
    unfold mergeGo at hu
    split at hu
    · have hchain2 : List.Chain' (fun a b => a.end_page ≤ b.end_page) (absorb cur s :: r) := by
        cases r with
        | nil => simp
        | cons v r2 =>
          rw [List.chain'_cons]
          exact ⟨(List.chain'_cons.mp hrest).1, (List.chain'_cons.mp hrest).2⟩
      exact ih (absorb cur s) hchain2 u hu
    · next hspan =>
      simp only [List.tail_cons] at hu
      exact mergeGo_spans_of_good r s hrest (by omega) u hu

/-- C6 (amended): for a section sequence whose end pages are non-decreasing
(as the assembler produces them), every section remaining after one merge pass
except possibly the first spans at least one page, and running the merger on
its own output is the identity.  The first section is never absorbed and can
keep a span below one page. -/
theorem c6_merge_idempotent (ss : List PSection)
    (hmono : List.Chain' (fun a b => a.end_page ≤ b.end_page) ss) :
    merge_short_sections (merge_short_sections ss) = merge_short_sections ss ∧
    ∀ u ∈ (merge_short_sections ss).tail, 1 ≤ u.end_page - u.start_page := by
  cases ss with
  | nil => exact ⟨rfl, by simp [merge_short_sections]⟩
  | cons s rest0 =>
  cases rest0 with
  | nil => exact ⟨rfl, by simp [merge_short_sections]⟩
  | cons s2 rest =>
    have hmerge : merge_short_sections (s :: s2 :: rest) = mergeGo s (s2 :: rest) := rfl
    have htail := mergeGo_tail_spans (s2 :: rest) s hmono
    refine ⟨?_, by rw [hmerge]; exact htail⟩
    rw [hmerge]
    obtain ⟨r0, rtail, hr⟩ : ∃ r0 rtail, mergeGo s (s2 :: rest) = r0 :: rtail := by
      cases hm : mergeGo s (s2 :: rest) with
      | nil => exact absurd hm (mergeGo_ne_nil (s2 :: rest) s)
      | cons r0 rtail => exact ⟨r0, rtail, rfl⟩
    rw [hr]
    cases rtail with
    | nil => rfl
    | cons r1 rtail2 =>
      show mergeGo r0 (r1 :: rtail2) = r0 :: r1 :: rtail2
      apply mergeGo_eq_self
      intro u hu
      have := htail
      rw [hr] at this
      exact this u (by simpa using hu)

/-- C6 witness: the amended theorem at a concrete monotone section list. -/
theorem c6_merge_idempotent_witness :
    merge_short_sections (merge_short_sections
      [mkSec "CHAPTER 1 OVERVIEW" "alpha" 1 2,
       mkSec "CHAPTER 2 DETAILS" "beta" 3 3,
       mkSec "CHAPTER 3 NOTES" "gamma" 4 5]) =
    merge_short_sections
      [mkSec "CHAPTER 1 OVERVIEW" "alpha" 1 2,
       mkSec "CHAPTER 2 DETAILS" "beta" 3 3,
       mkSec "CHAPTER 3 NOTES" "gamma" 4 5] :=
  (c6_merge_idempotent
    [mkSec "CHAPTER 1 OVERVIEW" "alpha" 1 2,
     mkSec "CHAPTER 2 DETAILS" "beta" 3 3,
     mkSec "CHAPTER 3 NOTES" "gamma" 4 5]
    (by
      rw [List.chain'_cons, List.chain'_cons]
      exact ⟨by decide, by decide, List.chain'_singleton _⟩)).1

/-- C6 (counterexample). The claim states that after one merge pass every
section, the first included, spans at least one page, and that the merger is
idempotent on every section sequence.  Both parts fail: a zero-span first
section survives the merge untouched, and on a sequence whose absorbed
section moves end_page backwards the second pass merges further. -/
theorem c6_counterexample :
    merge_short_sections
        [mkSec "CHAPTER 1 OVERVIEW" "alpha" 1 1, mkSec "CHAPTER 2 DETAILS" "beta" 2 3] =
      [mkSec "CHAPTER 1 OVERVIEW" "alpha" 1 1, mkSec "CHAPTER 2 DETAILS" "beta" 2 3] ∧
    (mkSec "CHAPTER 1 OVERVIEW" "alpha" 1 1).end_page -
        (mkSec "CHAPTER 1 OVERVIEW" "alpha" 1 1).start_page < 1 ∧
    merge_short_sections (merge_short_sections
        [mkSec "CHAPTER 1 OVERVIEW" "alpha" 1 2,
         mkSec "CHAPTER 2 DETAILS" "beta" 10 20,
         mkSec "CHAPTER 3 NOTES" "gamma" 1 1]) ≠
      merge_short_sections
        [mkSec "CHAPTER 1 OVERVIEW" "alpha" 1 2,
         mkSec "CHAPTER 2 DETAILS" "beta" 10 20,
         mkSec "CHAPTER 3 NOTES" "gamma" 1 1] := by
  refine ⟨by decide, by decide, by decide⟩

/-! ## Claim C7: applicability is not recomputed on merge -/

/-- The metadata fields the merge loop never rewrites. -/
def inheritsMeta (u v : PSection) : Prop :=
  u.title = v.title ∧ u.start_page = v.start_page ∧ u.applicability = v.applicability ∧
  u.module_code = v.module_code ∧ u.section_type = v.section_type

theorem inheritsMeta_refl (u : PSection) : inheritsMeta u u :=
  ⟨rfl, rfl, rfl, rfl, rfl⟩

theorem inheritsMeta_absorb (cur s : PSection) : inheritsMeta (absorb cur s) cur :=
  ⟨rfl, rfl, rfl, rfl, rfl⟩

theorem inheritsMeta_trans {a b c : PSection} (h1 : inheritsMeta a b)
    (h2 : inheritsMeta b c) : inheritsMeta a c := by
  obtain ⟨x1, x2, x3, x4, x5⟩ := h1
  obtain ⟨y1, y2, y3, y4, y5⟩ := h2
  exact ⟨x1.trans y1, x2.trans y2, x3.trans y3, x4.trans y4, x5.trans y5⟩

theorem mergeGo_meta (rest : List PSection) :
    ∀ cur u, u ∈ mergeGo cur rest →
      inheritsMeta u cur ∨ ∃ s ∈ rest, inheritsMeta u s := by
  induction rest with
  | nil =>
    intro cur u hu
    simp only [mergeGo, List.mem_singleton] at hu
    subst hu
    exact Or.inl (inheritsMeta_refl _)
  | cons s r ih =>
    intro cur u hu
    unfold mergeGo at hu
    split at hu
    · rcases ih (absorb cur s) u hu with h | ⟨v, hv, hm⟩
      · exact Or.inl (inheritsMeta_trans h (inheritsMeta_absorb cur s))
      · exact Or.inr ⟨v, by simp [hv], hm⟩
    · rcases List.mem_cons.mp hu with hu | hu
      · subst hu; exact Or.inl (inheritsMeta_refl _)
      · rcases ih s u hu with h | ⟨v, hv, hm⟩
        · exact Or.inr ⟨s, by simp, h⟩
        · exact Or.inr ⟨v, by simp [hv], hm⟩

/-- C7 (amended): the merger never recomputes applicability (nor title, start
page, module code or section type): every section produced by
merge_short_sections inherits these fields verbatim from one of the input
sections — for an absorbing section, its own pre-merge values — rather than
from a cascade over the merged body text. -/
theorem c7_merge_keeps_applicability (ss : List PSection) (u : PSection)
    (hu : u ∈ merge_short_sections ss) :
    ∃ s ∈ ss, u.title = s.title ∧ u.start_page = s.start_page ∧
      u.applicability = s.applicability ∧ u.module_code = s.module_code ∧
      u.section_type = s.section_type := by
  cases ss with
  | nil => simp [merge_short_sections] at hu
  | cons s rest0 =>
  cases rest0 with
  | nil =>
    simp only [merge_short_sections, List.mem_singleton] at hu
    subst hu
    exact ⟨_, by simp, inheritsMeta_refl _⟩
  | cons s2 rest =>
    have hu' : u ∈ mergeGo s (s2 :: rest) := hu
    rcases mergeGo_meta (s2 :: rest) s u hu' with h | ⟨v, hv, hm⟩
    · exact ⟨s, by simp, h⟩
    · exact ⟨v, by simp [hv], hm⟩

/-- C7 witness: the amended theorem at a concrete merge. -/
theorem c7_merge_keeps_applicability_witness :
    ∃ s ∈ [mkSec "CHAPTER 1 OVERVIEW" "plain general text" 1 2,
           mkSec "CHAPTER 2 DETAILS" "the F-16C notes" 3 3],
      (absorb (mkSec "CHAPTER 1 OVERVIEW" "plain general text" 1 2)
        (mkSec "CHAPTER 2 DETAILS" "the F-16C notes" 3 3)).title = s.title ∧
      (absorb (mkSec "CHAPTER 1 OVERVIEW" "plain general text" 1 2)
        (mkSec "CHAPTER 2 DETAILS" "the F-16C notes" 3 3)).start_page = s.start_page ∧
      (absorb (mkSec "CHAPTER 1 OVERVIEW" "plain general text" 1 2)
        (mkSec "CHAPTER 2 DETAILS" "the F-16C notes" 3 3)).applicability = s.applicability ∧
      (absorb (mkSec "CHAPTER 1 OVERVIEW" "plain general text" 1 2)
        (mkSec "CHAPTER 2 DETAILS" "the F-16C notes" 3 3)).module_code = s.module_code ∧
      (absorb (mkSec "CHAPTER 1 OVERVIEW" "plain general text" 1 2)
        (mkSec "CHAPTER 2 DETAILS" "the F-16C notes" 3 3)).section_type = s.section_type :=
  c7_merge_keeps_applicability
    [mkSec "CHAPTER 1 OVERVIEW" "plain general text" 1 2,
     mkSec "CHAPTER 2 DETAILS" "the F-16C notes" 3 3]
    (absorb (mkSec "CHAPTER 1 OVERVIEW" "plain general text" 1 2)
      (mkSec "CHAPTER 2 DETAILS" "the F-16C notes" 3 3))
    (by decide)

/-- C7 (counterexample). The claim states a merged section's applicability
equals the variant cascade applied to the full merged body, including for
sections produced by absorbing a shorter section.  Here both inputs carry the
applicability derived from their own content, the second (zero-span, F-16C
content) is absorbed into the first (General content), and the merged section
keeps applicability General while the cascade over its merged body yields
F-16C. -/
theorem c7_counterexample :
    (mkSec "CHAPTER 1 OVERVIEW" "plain general text" 1 2).applicability =
      detect_applicability "plain general text" ∧
    (mkSec "CHAPTER 2 DETAILS" "the F-16C notes" 3 3).applicability =
      detect_applicability "the F-16C notes" ∧
    (merge_short_sections
      [mkSec "CHAPTER 1 OVERVIEW" "plain general text" 1 2,
       mkSec "CHAPTER 2 DETAILS" "the F-16C notes" 3 3]).map
        (fun u => (u.applicability, detect_applicability u.content)) =
      [("General", "F-16C")] ∧
    ("General" : String) ≠ "F-16C" := by
  refine ⟨rfl, rfl, by decide, by decide⟩

/-! ## The Section Assembler (parse_main_headings_only) -/

/-- The current_section dict built when a heading opens a section. -/
structure CurSection where
  title : String
  module_code : String
  type : String
  page : Int
  page_count : Int
  deriving DecidableEq, Repr

/-- The section record pushed when the next heading is found: end_page is one
less than the page at which the next heading is read. -/
def emitMid (cur : CurSection) (content : List String) (page : Int) : PSection :=
  { title := cur.title
    content := joinNl content
    module_code := cur.module_code
    start_page := cur.page
    end_page := page - 1
    section_type := cur.type
    page_count := page - cur.page
    content_summary := create_content_summary (joinNl content)
    applicability := detect_applicability (joinNl content)
    has_graphics := detect_graphics (joinNl content) }

/-- The final section record pushed at end of stream: end_page is the current
page. -/
def emitFinal (cur : CurSection) (content : List String) (page : Int) : PSection :=
  { title := cur.title
    content := joinNl content
    module_code := cur.module_code
    start_page := cur.page
    end_page := page
    section_type := cur.type
    page_count := page - cur.page + 1
    content_summary := create_content_summary (joinNl content)
    applicability := detect_applicability (joinNl content)
    has_graphics := detect_graphics (joinNl content) }

/-- int(line.replace("[PAGE_", "").replace("]", "")) for a page-marker line;
none models the ValueError raised on a malformed marker. -/
def markerValue (l : String) : Option Int :=
  parseIntS (String.mk (removeSub "]".data (removeSub "[PAGE_".data l.data)))

/-- The line loop of parse_main_headings_only.  State: emitted sections, the
open section, its accumulated content lines, the current page.  Returns none
when a page marker fails to parse (the source would raise). -/
def parseGo : List String → List PSection → Option CurSection → List String → Int →
    Option (List PSection)
  | [], sections, cur, content, page =>
    match cur, content with
    | some c, _ :: _ => some (sections ++ [emitFinal c content page])
    | _, _ => some sections
  | line :: rest, sections, cur, content, page =>
    if pyStripS line = "" then parseGo rest sections cur content page
    else if "[PAGE_".data.isPrefixOf (pyStripS line).data then
      match markerValue (pyStripS line) with
      | some n => parseGo rest sections cur content n
      | none => none
    else if is_main_heading (pyStripS line) then
      parseGo rest
        (match cur, content with
         | some c, _ :: _ => sections ++ [emitMid c content page]
         | _, _ => sections)
        (some { title := pyStripS line
                module_code := moduleCodeFor (detect_module_type (pyStripS line))
                type := detect_module_type (pyStripS line)
                page := page, page_count := 1 })
        [] page
    else
      match cur with
      | some _ => parseGo rest sections cur (content ++ [pyStripS line]) page
      | none => parseGo rest sections cur content page

/-- parse_main_headings_only: split the page-tagged text into sections at main
headings.  The initial current page is 1. -/
def parse_main_headings_only (text : String) : Option (List PSection) :=
  parseGo (linesOf text) [] none [] 1

/-- The page-marker values of the line stream, in order. -/
def markersOfLines (lines : List String) : List Int :=
  lines.filterMap (fun l =>
    if "[PAGE_".data.isPrefixOf (pyStripS l).data then markerValue (pyStripS l) else none)

/-- The page-marker values of the text, in order. -/
def pageMarkers (text : String) : List Int := markersOfLines (linesOf text)

/-! ## Claim C3: page spans of assembled sections -/

/-- One-step equation of the assembler loop on a cons. -/
theorem parseGo_cons (line : String) (rest : List String) (sections : List PSection)
    (cur : Option CurSection) (content : List String) (page : Int) :
    parseGo (line :: rest) sections cur content page =
      (if pyStripS line = "" then parseGo rest sections cur content page
       else if "[PAGE_".data.isPrefixOf (pyStripS line).data then
         match markerValue (pyStripS line) with
         | some n => parseGo rest sections cur content n
         | none => none
       else if is_main_heading (pyStripS line) then
         parseGo rest
           (match cur, content with
            | some c, _ :: _ => sections ++ [emitMid c content page]
            | _, _ => sections)
           (some { title := pyStripS line
                   module_code := moduleCodeFor (detect_module_type (pyStripS line))
                   type := detect_module_type (pyStripS line)
                   page := page, page_count := 1 })
           [] page
       else
         match cur with
         | some _ => parseGo rest sections cur (content ++ [pyStripS line]) page
         | none => parseGo rest sections cur content page) := rfl

/-- Invariant proof for the assembler loop: with non-decreasing page markers,
every emitted section satisfies end_page >= start_page - 1. -/
theorem parseGo_spans :
    ∀ (lines : List String) (sections : List PSection) (cur : Option CurSection)
      (content : List String) (page : Int) (secs : List PSection),
      parseGo lines sections cur content page = some secs →
      List.Chain' (· ≤ ·) (page :: markersOfLines lines) →
      (∀ s ∈ sections, s.start_page - 1 ≤ s.end_page) →
      (∀ c, cur = some c → c.page ≤ page) →
      ∀ s ∈ secs, s.start_page - 1 ≤ s.end_page := by
  intro lines
  induction lines with
  | nil =>
    intro sections cur content page secs hp hchain hsec hcur s hs
    cases cur with
    | none =>
      simp only [parseGo] at hp
      cases hp
      exact hsec s hs
    | some c =>
      cases content with
      | nil =>
        simp only [parseGo] at hp
        cases hp
        exact hsec s hs
      | cons a b =>
        simp only [parseGo] at hp
        cases hp
        rcases List.mem_append.mp hs with h | h
        · exact hsec s h
        · simp only [List.mem_singleton] at h
          subst h
          have := hcur c rfl
          simp only [emitFinal]
          omega
  | cons line rest ih =>
    intro sections cur content page secs hp hchain hsec hcur s hs
    rw [parseGo_cons] at hp
    by_cases hempty : pyStripS line = ""
    · rw [if_pos hempty] at hp
      have hmk : markersOfLines (line :: rest) = markersOfLines rest := by
        unfold markersOfLines
        rw [List.filterMap_cons]
        rw [show ("[PAGE_".data.isPrefixOf (pyStripS line).data) = false by rw [hempty]; rfl]
        all_goals rfl
      rw [hmk] at hchain
      exact ih sections cur content page secs hp hchain hsec hcur s hs
    · rw [if_neg hempty] at hp
      by_cases hmark : "[PAGE_".data.isPrefixOf (pyStripS line).data
      · rw [if_pos hmark] at hp
        cases hmv : markerValue (pyStripS line) with
        | none => rw [hmv] at hp; cases hp
        | some n =>
          rw [hmv] at hp
          have hmk : markersOfLines (line :: rest) = n :: markersOfLines rest := by
            unfold markersOfLines
            rw [List.filterMap_cons]
            rw [if_pos hmark, hmv]
          rw [hmk] at hchain
          have hpn : page ≤ n := (List.chain'_cons.mp hchain).1
          have hchain2 : List.Chain' (· ≤ ·) (n :: markersOfLines rest) :=
            (List.chain'_cons.mp hchain).2
          refine ih sections cur content n secs hp hchain2 hsec ?_ s hs
          intro c hc
          have := hcur c hc
          omega
      · rw [if_neg hmark] at hp
        have hmk : markersOfLines (line :: rest) = markersOfLines rest := by
          unfold markersOfLines
          rw [List.filterMap_cons]
          rw [show ("[PAGE_".data.isPrefixOf (pyStripS line).data) = false from
            Bool.eq_false_iff.mpr hmark]
          all_goals rfl
        rw [hmk] at hchain
        by_cases hhead : is_main_heading (pyStripS line)
        · rw [if_pos hhead] at hp
          refine ih _ _ [] page secs hp hchain ?_ ?_ s hs
          · intro u hu
            cases cur with
            | none => exact hsec u hu
            | some c =>
              cases content with
              | nil => exact hsec u hu
              | cons a b =>
                rcases List.mem_append.mp hu with h | h
                · exact hsec u h
                · simp only [List.mem_singleton] at h
                  subst h
                  have := hcur c rfl
                  simp only [emitMid]
                  omega
          · intro c hc
            cases hc
            simp
        · rw [if_neg hhead] at hp
          cases cur with
          | none => exact ih sections none content page secs hp hchain hsec hcur s hs
          | some c =>
            exact ih sections (some c) (content ++ [pyStripS line]) page secs hp hchain
              hsec hcur s hs

/-- C3 (amended): for a text whose page markers are non-decreasing and start
at 1 or later, every Section emitted by parse_main_headings_only satisfies
end_page >= start_page - 1; the claimed invariant start_page <= end_page can
fail by exactly one page, because a non-final section's end_page is one less
than the page at which the next heading is read, which equals start_page - 1
when two consecutive headings are recognized on the same page. -/
theorem c3_section_spans (text : String) (secs : List PSection)
    (hp : parse_main_headings_only text = some secs)
    (hmono : List.Chain' (· ≤ ·) ((1 : Int) :: pageMarkers text)) :
    ∀ s ∈ secs, s.start_page - 1 ≤ s.end_page := by
  refine parseGo_spans (linesOf text) [] none [] 1 secs hp hmono ?_ ?_
  · intro s hs; simp at hs
  · intro c hc; cases hc

/-- C3 witness: the amended bound evaluated on a concrete two-page text. -/
theorem c3_section_spans_witness :
    ((parse_main_headings_only
        "[PAGE_1]\nCHAPTER 1\nbody text here\n[PAGE_2]\nCHAPTER 2\nmore body").getD []).all
      (fun s => decide (s.start_page - 1 ≤ s.end_page)) = true := by
  have h := c3_section_spans
    "[PAGE_1]\nCHAPTER 1\nbody text here\n[PAGE_2]\nCHAPTER 2\nmore body"
    ((parse_main_headings_only
        "[PAGE_1]\nCHAPTER 1\nbody text here\n[PAGE_2]\nCHAPTER 2\nmore body").getD [])
    (by rfl)
    (by
      rw [show pageMarkers
          "[PAGE_1]\nCHAPTER 1\nbody text here\n[PAGE_2]\nCHAPTER 2\nmore body" =
          [(1 : Int), 2] from by decide]
      rw [List.chain'_cons, List.chain'_cons]
      exact ⟨by decide, by decide, List.chain'_singleton _⟩)
  rw [List.all_eq_true]
  intro s hs
  exact decide_eq_true (h s hs)

/-- C3 (counterexample). The claim states every emitted Section satisfies
start_page <= end_page even when two consecutive headings are recognized on
the same page.  On this text both headings are read on page 1, and the first
emitted section has start_page 1 and end_page 0. -/
theorem c3_counterexample :
    (parse_main_headings_only
        "[PAGE_1]\nCHAPTER 1\nsome body text\nCHAPTER 2\nmore body text").map
      (fun ss => ss.map (fun s => (s.start_page, s.end_page))) =
      some [((1 : Int), (0 : Int)), (1, 1)] ∧
    ¬((1 : Int) ≤ 0) := by
  exact ⟨by decide, by decide⟩

/-! ## Paragraph splitting (split_content_into_paragraphs) -/

/-- Two adjacent spaces somewhere in the text. -/
def hasDoubleSpace : List Char → Bool
  | a :: b :: t => (a = ' ' && b = ' ') || hasDoubleSpace (b :: t)
  | _ => false

/-- No two adjacent whitespace characters (stronger than no double space). -/
def NoDW (l : List Char) : Prop :=
  List.Chain' (fun a b => ¬(a.isWhitespace = true ∧ b.isWhitespace = true)) l

/-- Tail of the r"^\d+\." pattern after the first digit. -/
def numDotTail : List Char → Bool
  | [] => false
  | c :: cs => if c.isDigit then numDotTail cs else c = '.'

/-- re.match r"^\d+\.". -/
def startsNumDot : List Char → Bool
  | [] => false
  | c :: cs => c.isDigit && numDotTail cs

/-- re.match r"^[A-Z][A-Z\s]+$". -/
def allCapsPattern : List Char → Bool
  | [] => false
  | c :: cs => c.isUpper && !cs.isEmpty && cs.all (fun d => d.isUpper || d.isWhitespace)

/-- upper_count / len(line) > 0.7, modelled exactly (see header note). -/
def upperRatioHigh (l : List Char) : Bool :=
  decide (10 * (l.filter Char.isUpper).length > 7 * l.length)

/-- is_likely_title: length gate, uppercase-ratio test, then the three title
patterns. -/
def is_likely_title (line : String) : Bool :=
  if decide (line.length < 5) || decide (60 < line.length) then false
  else if upperRatioHigh line.data then true
  else
    startsNumDot line.data || allCapsPattern line.data ||
    ("CHAPTER".data.isPrefixOf line.data || "SECTION".data.isPrefixOf line.data ||
     "PART".data.isPrefixOf line.data)

/-- clean_title_line: strip social/ISBN noise, collapse whitespace, trim, drop
titles shorter than five characters. -/
def clean_title_line (line : String) : String :=
  if line = "" then ""
  else if (pyStripL (collapseL (subIsbnL (subSocialL line.data)))).length < 5 then ""
  else String.mk (pyStripL (collapseL (subIsbnL (subSocialL line.data))))

/-- r"\.\s+[A-Z]" matching at this position. -/
def slPat1 : List Char → Bool
  | [] => false
  | c :: cs => c = '.' && wsPlusL (headIs Char.isUpper) cs

/-- r";\s+" matching at this position. -/
def slPat2 : List Char → Bool
  | [] => false
  | c :: cs => c = ';' && headIs Char.isWhitespace cs

/-- r"\.\s*$" matching at this position (only whitespace may follow). -/
def slPat3 : List Char → Bool
  | [] => false
  | c :: cs => c = '.' && cs.all Char.isWhitespace

/-- r"\?\s+" matching at this position. -/
def slPat4 : List Char → Bool
  | [] => false
  | c :: cs => c = '?' && headIs Char.isWhitespace cs

/-- r"!\s+" matching at this position. -/
def slPat5 : List Char → Bool
  | [] => false
  | c :: cs => c = '!' && headIs Char.isWhitespace cs

/-- Index of the first match of a pattern (none of the five split patterns can
match the empty suffix). -/
def firstMatch (p : List Char → Bool) : List Char → Option Nat
  | [] => none
  | c :: cs => if p (c :: cs) then some 0 else (firstMatch p cs).map (· + 1)

/-- The ordered split_points of split_long_paragraph. -/
def slPatterns : List (List Char → Bool) := [slPat1, slPat2, slPat3, slPat4, slPat5]

/-- Append parts[0].strip() when nonempty and longer than 20 characters. -/
def slAppendFirst (paras : List String) (cur : String) (i : Nat) : List String :=
  if pyStripS (String.mk (cur.data.take i)) ≠ "" ∧
      20 < (pyStripS (String.mk (cur.data.take i))).length then
    paras ++ [pyStripS (String.mk (cur.data.take i))]
  else paras

/-- The pattern loop of split_long_paragraph: one pass over the ordered
patterns; stops early when the current text fits in 500 characters, and the
remaining text after the first match becomes the new current text.  The
remaining suffix always starts at the separator (joining parts[1:] restores
it). -/
def slLoop : List (List Char → Bool) → List String → String → List String × String
  | [], paras, cur => (paras, cur)
  | p :: ps, paras, cur =>
    if cur.length ≤ 500 then (paras, cur)
    else
      match firstMatch p cur.data with
      | none => slLoop ps paras cur
      | some i =>
        if pyStripS (String.mk (cur.data.drop i)) = "" then (slAppendFirst paras cur i, cur)
        else slLoop ps (slAppendFirst paras cur i) (pyStripS (String.mk (cur.data.drop i)))

/-- Append the final current text when nonempty and longer than 20 chars. -/
def slAppendLast (paras : List String) (cur : String) : List String :=
  if pyStripS cur ≠ "" ∧ 20 < (pyStripS cur).length then paras ++ [pyStripS cur] else paras

/-- The word-count bisection fallback and the final return of
split_long_paragraph. -/
def slBisect (text : String) (paras : List String) : List String :=
  if paras.length = 1 ∧ 500 < (paras.headD "").length then
    if 50 < (pySplitS (paras.headD "")).length then
      [joinSpace ((pySplitS (paras.headD "")).take ((pySplitS (paras.headD "")).length / 2)),
       joinSpace ((pySplitS (paras.headD "")).drop ((pySplitS (paras.headD "")).length / 2))]
    else if paras.isEmpty then [text] else paras
  else if paras.isEmpty then [text] else paras

/-- split_long_paragraph: split an over-500-character paragraph at the first
available boundary of each ordered pattern, with a word-count bisection
fallback. -/
def split_long_paragraph (text : String) : List String :=
  if text.length ≤ 500 then [text]
  else
    slBisect text
      (slAppendLast (slLoop slPatterns [] text).1 (slLoop slPatterns [] text).2)

/-- content.replace("\r\n", "\n").replace("\r", "\n"). -/
def normNl : List Char → List Char
  | [] => []
  | '\r' :: '\n' :: t => '\n' :: normNl t
  | '\r' :: t => '\n' :: normNl t
  | c :: t => c :: normNl t

/-- Flush the accumulated paragraph buffer through clean_paragraph, appending
the result when nonempty (an empty buffer joins to the empty string, which
clean_paragraph maps to the empty string, so nothing is appended). -/
def flushPara (paras : List String) (curp : List String) : List String :=
  if clean_paragraph (joinSpace curp) = "" then paras
  else paras ++ [clean_paragraph (joinSpace curp)]

/-- The line loop of split_content_into_paragraphs: blank lines flush the
buffer; short all-caps or title-like lines flush and emit a cleaned title
paragraph; other lines accumulate, flushing when the joined buffer exceeds
300 characters. -/
def scLoop : List String → List String → List String → List String
  | [], paras, curp => flushPara paras curp
  | line :: rest, paras, curp =>
    if pyStripS line = "" then scLoop rest (flushPara paras curp) []
    else if decide ((pyStripS line).length < 40) &&
        (pyIsUpper (pyStripS line).data || is_likely_title (pyStripS line)) then
      scLoop rest
        (flushPara paras curp ++
          (if clean_title_line (pyStripS line) = "" then []
           else [clean_title_line (pyStripS line)]))
        []
    else if decide (300 < (joinSpace (curp ++ [pyStripS line])).length) then
      scLoop rest (flushPara paras (curp ++ [pyStripS line])) []
    else scLoop rest paras (curp ++ [pyStripS line])

/-- The long-paragraph pass: paragraphs over 500 characters are re-split. -/
def finalSplit : List String → List String
  | [] => []
  | p :: rest => (if 500 < p.length then split_long_paragraph p else [p]) ++ finalSplit rest

/-- split_content_into_paragraphs: degenerate inputs (empty or stripped length
under 50) pass through; otherwise split into lines, run the line loop, re-split
long paragraphs and keep those whose stripped length exceeds 10. -/
def split_content_into_paragraphs (content : String) : List String :=
  if content = "" ∨ (pyStripS content).length < 50 then
    if pyStripS content = "" then [] else [pyStripS content]
  else
    (finalSplit (scLoop ((splitNl (normNl content.data)).map String.mk) [] [])).filter
      (fun p => !decide (pyStripS p = "") && decide (10 < (pyStripS p).length))

/-! ## No-double-whitespace lemmas -/

/-- Unfolding collapseL on a whitespace head. -/
theorem collapseL_cons_ws {c : Char} (hc : c.isWhitespace = true) (cs : List Char) :
    collapseL (c :: cs) = ' ' :: collapseSkip cs := by
  conv_lhs => unfold collapseL
  rw [if_pos hc]

/-- Unfolding collapseSkip on a whitespace head. -/
theorem collapseSkip_cons_ws {c : Char} (hc : c.isWhitespace = true) (cs : List Char) :
    collapseSkip (c :: cs) = collapseSkip cs := by
  conv_lhs => unfold collapseSkip
  rw [if_pos hc]

theorem noDW_nil : NoDW [] := by simp [NoDW]

theorem noDW_singleton (c : Char) : NoDW [c] := by simp [NoDW]

theorem noDW_cons_cons {a b : Char} {t : List Char} :
    NoDW (a :: b :: t) ↔
      ¬(a.isWhitespace = true ∧ b.isWhitespace = true) ∧ NoDW (b :: t) :=
  List.chain'_cons

/-- Whitespace-free text has no adjacent whitespace pair. -/
theorem noDW_of_nows : ∀ {l : List Char}, (∀ c ∈ l, c.isWhitespace = false) → NoDW l := by
  intro l
  induction l with
  | nil => intro _; exact noDW_nil
  | cons a t ih =>
    intro h
    cases t with
    | nil => exact noDW_singleton a
    | cons b t2 =>
      refine noDW_cons_cons.mpr ⟨?_, ih (fun c hc => h c (by simp [hc]))⟩
      intro hcon
      have := h a (by simp)
      rw [this] at hcon
      exact absurd hcon.1 (by simp)

/-- An infix of no-double-whitespace text is no-double-whitespace. -/
theorem noDW_within {l m : List Char} (h : NoDW l) (hm : m <:+: l) : NoDW m :=
  h.infix hm

/-- pyStripL yields an infix of its input. -/
theorem pyStrip_within (l : List Char) : pyStripL l <:+: l := by
  unfold pyStripL
  have h1 : l.dropWhile Char.isWhitespace <:+ l := List.dropWhile_suffix _
  have h2 : (l.dropWhile Char.isWhitespace).reverse.dropWhile Char.isWhitespace <:+
      (l.dropWhile Char.isWhitespace).reverse := List.dropWhile_suffix _
  have h3 := h2.reverse
  rw [List.reverse_reverse] at h3
  exact h3.isInfix.trans h1.isInfix

/-- collapseL output never contains adjacent whitespace; collapseSkip output
additionally starts with a non-whitespace character. -/
theorem collapse_NoDW : ∀ l : List Char,
    NoDW (collapseL l) ∧ NoDW (collapseSkip l) ∧
      ∀ c t, collapseSkip l = c :: t → c.isWhitespace = false := by
  intro l
  induction l with
  | nil =>
    refine ⟨noDW_nil, noDW_nil, ?_⟩
    intro c t h
    simp [collapseSkip] at h
  | cons a t ih =>
    obtain ⟨ih1, ih2, ih3⟩ := ih
    by_cases ha : a.isWhitespace
    · refine ⟨?_, ?_, ?_⟩
      · rw [collapseL_cons_ws ha]
        cases hsk : collapseSkip t with
        | nil => exact noDW_singleton ' '
        | cons c t2 =>
          refine noDW_cons_cons.mpr ⟨?_, hsk ▸ ih2⟩
          intro hcon
          exact absurd hcon.2 (by simp [ih3 c t2 hsk])
      · rw [collapseSkip_cons_ws ha]; exact ih2
      · intro c t2 h
        rw [collapseSkip_cons_ws ha] at h
        exact ih3 c t2 h
    · have ha' : a.isWhitespace = false := Bool.eq_false_iff.mpr ha
      refine ⟨?_, ?_, ?_⟩
      · rw [collapseL_cons_nows ha']
        cases hcl : collapseL t with
        | nil => exact noDW_singleton a
        | cons c t2 =>
          refine noDW_cons_cons.mpr ⟨?_, hcl ▸ ih1⟩
          intro hcon
          rw [ha'] at hcon
          exact absurd hcon.1 (by simp)
      · rw [collapseSkip_cons_nows ha']
        cases hcl : collapseL t with
        | nil => exact noDW_singleton a
        | cons c t2 =>
          refine noDW_cons_cons.mpr ⟨?_, hcl ▸ ih1⟩
          intro hcon
          rw [ha'] at hcon
          exact absurd hcon.1 (by simp)
      · intro c t2 h
        rw [collapseSkip_cons_nows ha'] at h
        rw [List.cons.injEq] at h
        rw [← h.1]
        exact ha'

/-- The space-join of nonempty whitespace-free words has no adjacent
whitespace pair. -/
theorem noDW_joinSpace :
    ∀ ws : List (List Char),
      (∀ w ∈ ws, w ≠ [] ∧ ∀ c ∈ w, c.isWhitespace = false) → NoDW (joinSpaceL ws) := by
  intro ws
  induction ws with
  | nil => intro _; exact noDW_nil
  | cons w rest ih =>
    intro h
    obtain ⟨hwne, hwnows⟩ := h w (by simp)
    cases rest with
    | nil =>
      show NoDW (joinSpaceL [w])
      simp only [joinSpaceL]
      exact noDW_of_nows hwnows
    | cons v rest2 =>
      have hJ : joinSpaceL (w :: v :: rest2) = w ++ ' ' :: joinSpaceL (v :: rest2) := by
        simp [joinSpaceL]
      rw [hJ]
      refine List.chain'_append.mpr ⟨noDW_of_nows hwnows, ?_, ?_⟩
      · -- NoDW (' ' :: joinSpaceL (v :: rest2))
        obtain ⟨hvne, hvnows⟩ := h v (by simp)
        obtain ⟨c, t, hv⟩ : ∃ c t, v = c :: t := by
          cases v with
          | nil => exact absurd rfl hvne
          | cons c t => exact ⟨c, t, rfl⟩
        have hshape : joinSpaceL (v :: rest2) =
            c :: (t ++ if rest2.isEmpty then [] else ' ' :: joinSpaceL rest2) := by
          rw [joinSpace_cons, hv]; rfl
        rw [hshape]
        refine noDW_cons_cons.mpr ⟨?_, ?_⟩
        · intro hcon
          have : c.isWhitespace = false := hvnows c (by rw [hv]; simp)
          rw [this] at hcon
          exact absurd hcon.2 (by simp)
        · rw [← hshape]
          exact ih (fun u hu => h u (by simp [hu]))
      · intro x hx y hy
        simp only [List.head?_cons, Option.mem_def, Option.some.injEq] at hy
        subst hy
        intro hcon
        have hxmem : x ∈ w := by
          obtain ⟨hne, hx2⟩ := List.mem_getLast?_eq_getLast hx
          rw [hx2]
          exact List.getLast_mem hne
        have := hwnows x hxmem
        rw [this] at hcon
        exact absurd hcon.1 (by simp)

/-- NoDW rules out double spaces. -/
theorem hasDoubleSpace_eq_false_of_NoDW : ∀ {l : List Char}, NoDW l →
    hasDoubleSpace l = false := by
  intro l h
  induction l with
  | nil => rfl
  | cons a t ih =>
    cases t with
    | nil => rfl
    | cons b t2 =>
      obtain ⟨hab, h2⟩ := noDW_cons_cons.mp h
      rw [show hasDoubleSpace (a :: b :: t2) =
          ((a = ' ' && b = ' ') || hasDoubleSpace (b :: t2)) from rfl]
      rw [ih h2]
      have hsp : (decide (a = ' ') && decide (b = ' ')) = false := by
        by_cases hae : a = ' '
        · by_cases hbe : b = ' '
          · exact absurd ⟨by rw [hae]; rfl, by rw [hbe]; rfl⟩ hab
          · simp [hbe]
        · simp [hae]
      simp only [hsp, Bool.false_or]

/-! ## Per-route no-double-whitespace facts -/

/-- Collapsing then stripping always removes adjacent whitespace pairs. -/
theorem noDW_stripCollapse (l : List Char) : NoDW (pyStripL (collapseL l)) :=
  noDW_within (collapse_NoDW l).1 (pyStrip_within (collapseL l))

theorem clean_paragraph_noDW (t : String) : NoDW (clean_paragraph t).data := by
  unfold clean_paragraph
  generalize hres : pyStripL (collapseL (joinSpaceL (cleanParaWords t))) = res
  generalize cleanParaBase t = b
  split
  · exact noDW_nil
  · split
    · exact noDW_nil
    · split
      · exact noDW_nil
      · exact hres ▸ noDW_stripCollapse (joinSpaceL (cleanParaWords t))

theorem clean_title_line_noDW (t : String) : NoDW (clean_title_line t).data := by
  unfold clean_title_line
  generalize hres : pyStripL (collapseL (subIsbnL (subSocialL t.data))) = res
  split
  · exact noDW_nil
  · split
    · exact noDW_nil
    · exact hres ▸ noDW_stripCollapse (subIsbnL (subSocialL t.data))

theorem slAppendFirst_noDW {paras : List String} {cur : String} {i : Nat}
    (hp : ∀ q ∈ paras, NoDW q.data) (hc : NoDW cur.data) :
    ∀ q ∈ slAppendFirst paras cur i, NoDW q.data := by
  intro q hq
  unfold slAppendFirst at hq
  split at hq
  · rcases List.mem_append.mp hq with h | h
    · exact hp q h
    · simp only [List.mem_singleton] at h
      subst h
      exact noDW_within hc ((pyStrip_within _).trans (List.take_prefix i cur.data).isInfix)
  · exact hp q hq

/-- One-step equation of the split_long pattern loop. -/
theorem slLoop_cons (p : List Char → Bool) (ps : List (List Char → Bool))
    (paras : List String) (cur : String) :
    slLoop (p :: ps) paras cur =
      (if cur.length ≤ 500 then (paras, cur)
       else
         match firstMatch p cur.data with
         | none => slLoop ps paras cur
         | some i =>
           if pyStripS (String.mk (cur.data.drop i)) = "" then (slAppendFirst paras cur i, cur)
           else slLoop ps (slAppendFirst paras cur i)
             (pyStripS (String.mk (cur.data.drop i)))) := rfl

theorem slLoop_cons_le {p : List Char → Bool} {ps : List (List Char → Bool)}
    {paras : List String} {cur : String} (h : cur.length ≤ 500) :
    slLoop (p :: ps) paras cur = (paras, cur) := by
  rw [slLoop_cons, if_pos h]

theorem slLoop_cons_none {p : List Char → Bool} {ps : List (List Char → Bool)}
    {paras : List String} {cur : String} (h : ¬cur.length ≤ 500)
    (hfm : firstMatch p cur.data = none) :
    slLoop (p :: ps) paras cur = slLoop ps paras cur := by
  rw [slLoop_cons, if_neg h, hfm]

theorem slLoop_cons_some {p : List Char → Bool} {ps : List (List Char → Bool)}
    {paras : List String} {cur : String} {i : Nat} (h : ¬cur.length ≤ 500)
    (hfm : firstMatch p cur.data = some i) :
    slLoop (p :: ps) paras cur =
      (if pyStripS (String.mk (cur.data.drop i)) = "" then (slAppendFirst paras cur i, cur)
       else slLoop ps (slAppendFirst paras cur i)
         (pyStripS (String.mk (cur.data.drop i)))) := by
  rw [slLoop_cons, if_neg h, hfm]

theorem slLoop_noDW :
    ∀ (ps : List (List Char → Bool)) (paras : List String) (cur : String),
      (∀ q ∈ paras, NoDW q.data) → NoDW cur.data →
      (∀ q ∈ (slLoop ps paras cur).1, NoDW q.data) ∧ NoDW ((slLoop ps paras cur).2).data := by
  intro ps
  induction ps with
  | nil => intro paras cur hp hc; exact ⟨hp, hc⟩
  | cons p ps ih =>
    intro paras cur hp hc
    by_cases h500 : cur.length ≤ 500
    · rw [slLoop_cons_le h500]; exact ⟨hp, hc⟩
    · cases hfm : firstMatch p cur.data with
      | none =>
        rw [slLoop_cons_none h500 hfm]
        exact ih paras cur hp hc
      | some i =>
        rw [slLoop_cons_some h500 hfm]
        split
        · exact ⟨slAppendFirst_noDW hp hc, hc⟩
        · exact ih _ _ (slAppendFirst_noDW hp hc)
            (noDW_within hc ((pyStrip_within _).trans (List.drop_suffix i cur.data).isInfix))

/-- The words of Python str.split() on a String: nonempty, whitespace-free. -/
theorem pySplitS_words (s : String) :
    ∀ w ∈ pySplitS s, w.data ≠ [] ∧ ∀ c ∈ w.data, c.isWhitespace = false := by
  intro w hw
  obtain ⟨u, hu, hwu⟩ := List.mem_map.mp hw
  subst hwu
  exact pySplitL_mem hu

/-- The space-join of nonempty whitespace-free String words has no adjacent
whitespace pair. -/
theorem noDW_joinSpace_strings (ws : List String)
    (h : ∀ w ∈ ws, w.data ≠ [] ∧ ∀ c ∈ w.data, c.isWhitespace = false) :
    NoDW (joinSpace ws).data := by
  show NoDW (joinSpaceL (ws.map String.data))
  refine noDW_joinSpace _ ?_
  intro v hv
  obtain ⟨w, hw, hvw⟩ := List.mem_map.mp hv
  subst hvw
  exact h w hw

theorem split_long_noDW (text : String) (ht : NoDW text.data) :
    ∀ q ∈ split_long_paragraph text, NoDW q.data := by
  intro q hq
  unfold split_long_paragraph at hq
  split at hq
  · simp only [List.mem_singleton] at hq; subst hq; exact ht
  · have hloop := slLoop_noDW slPatterns [] text (by simp) ht
    have hlast : ∀ r ∈ slAppendLast (slLoop slPatterns [] text).1
        (slLoop slPatterns [] text).2, NoDW r.data := by
      intro r hr
      unfold slAppendLast at hr
      split at hr
      · rcases List.mem_append.mp hr with h | h
        · exact hloop.1 r h
        · simp only [List.mem_singleton] at h
          subst h
          exact noDW_within hloop.2 (pyStrip_within _)
      · exact hloop.1 r hr
    unfold slBisect at hq
    split at hq
    · split at hq
      · rcases List.mem_cons.mp hq with h | h
        · subst h
          refine noDW_joinSpace_strings _ ?_
          intro w hw
          exact pySplitS_words _ w (List.mem_of_mem_take hw)
        · rcases List.mem_cons.mp h with h2 | h2
          · subst h2
            refine noDW_joinSpace_strings _ ?_
            intro w hw
            exact pySplitS_words _ w (List.mem_of_mem_drop hw)
          · simp at h2
      · split at hq
        · simp only [List.mem_singleton] at hq; subst hq; exact ht
        · exact hlast q hq
    · split at hq
      · simp only [List.mem_singleton] at hq; subst hq; exact ht
      · exact hlast q hq

theorem flushPara_noDW (paras curp : List String)
    (hp : ∀ q ∈ paras, NoDW q.data) : ∀ q ∈ flushPara paras curp, NoDW q.data := by
  intro q hq
  unfold flushPara at hq
  split at hq
  · exact hp q hq
  · rcases List.mem_append.mp hq with h | h
    · exact hp q h
    · simp only [List.mem_singleton] at h
      subst h
      exact clean_paragraph_noDW _

theorem scLoop_noDW :
    ∀ (lines paras curp : List String), (∀ q ∈ paras, NoDW q.data) →
      ∀ q ∈ scLoop lines paras curp, NoDW q.data := by
  intro lines
  induction lines with
  | nil => intro paras curp hp q hq; exact flushPara_noDW _ _ hp q hq
  | cons line rest ih =>
    intro paras curp hp q hq
    unfold scLoop at hq
    split at hq
    · exact ih _ [] (flushPara_noDW _ _ hp) q hq
    · split at hq
      · refine ih _ [] ?_ q hq
        intro r hr
        rcases List.mem_append.mp hr with h | h
        · exact flushPara_noDW _ _ hp r h
        · revert h
          split
          · intro h; simp at h
          · intro h
            simp only [List.mem_singleton] at h
            subst h
            exact clean_title_line_noDW _
      · split at hq
        · exact ih _ [] (flushPara_noDW _ _ hp) q hq
        · exact ih _ _ hp q hq

theorem finalSplit_noDW :
    ∀ ps : List String, (∀ r ∈ ps, NoDW r.data) → ∀ q ∈ finalSplit ps, NoDW q.data := by
  intro ps
  induction ps with
  | nil => intro _ q hq; simp [finalSplit] at hq
  | cons hd rest ih =>
    intro hall q hq
    have hhd : NoDW hd.data := hall hd (List.mem_cons_self hd rest)
    have hrest : ∀ u ∈ rest, NoDW u.data := fun u hu => hall u (List.mem_cons_of_mem hd hu)
    rw [show finalSplit (hd :: rest) =
        (if 500 < hd.length then split_long_paragraph hd else [hd]) ++ finalSplit rest
      from rfl] at hq
    rcases List.mem_append.mp hq with h1 | h1
    · by_cases hlen : 500 < hd.length
      · rw [if_pos hlen] at h1
        exact split_long_noDW hd hhd q h1
      · rw [if_neg hlen] at h1
        simp only [List.mem_singleton] at h1
        subst h1
        exact hhd
    · exact ih hrest q h1

/-! ## Claim C5: paragraph bounds -/

/-- C5 (amended): for non-degenerate input (stripped length at least 50),
every emitted Paragraph has nonempty stripped text of length greater than 10
and contains no double-space run.  The claimed [20,500] length bounds do not
hold in general: title-line paragraphs may be as short as 11 characters and
punctuation-free paragraphs may exceed 500 characters. -/
theorem c5_paragraph_properties (content p : String)
    (hnd : 50 ≤ (pyStripS content).length)
    (hp : p ∈ split_content_into_paragraphs content) :
    pyStripS p ≠ "" ∧ 10 < (pyStripS p).length ∧ hasDoubleSpace p.data = false := by
  have hcond : ¬(content = "" ∨ (pyStripS content).length < 50) := by
    rintro (h | h)
    · subst h
      simp only [pyStripS, pyStripL] at hnd
      simp at hnd
    · omega
  unfold split_content_into_paragraphs at hp
  rw [if_neg hcond] at hp
  have hmem := List.mem_filter.mp hp
  have hpred := hmem.2
  simp only [Bool.and_eq_true, Bool.not_eq_true', decide_eq_false_iff_not,
    decide_eq_true_eq] at hpred
  obtain ⟨hne, hgt⟩ := hpred
  refine ⟨hne, hgt, ?_⟩
  have hnodw : NoDW p.data :=
    finalSplit_noDW _ (scLoop_noDW _ [] [] (by simp)) p hmem.1
  exact hasDoubleSpace_eq_false_of_NoDW hnodw

/-- C5 witness: the amended properties at a concrete emitted paragraph. -/
theorem c5_paragraph_properties_witness :
    pyStripS "SHORT TITLES" ≠ "" ∧ 10 < (pyStripS "SHORT TITLES").length ∧
    hasDoubleSpace ("SHORT TITLES" : String).data = false :=
  c5_paragraph_properties
    "SHORT TITLES\nThe quick brown fox jumps over the lazy dog twice over."
    "SHORT TITLES" (by decide) (by decide)

/-- C5 (counterexample). The claim states that every Paragraph emitted for a
non-degenerate input has length in [20,500].  The 68-character first input
emits the 12-character paragraph SHORT TITLES, and the 510-character
punctuation-free input emits a single 510-character paragraph. -/
theorem c5_counterexample :
    50 ≤ ("SHORT TITLES\nThe quick brown fox jumps over the lazy dog twice over." :
      String).length ∧
    ("SHORT TITLES" : String) ∈ split_content_into_paragraphs
      "SHORT TITLES\nThe quick brown fox jumps over the lazy dog twice over." ∧
    ("SHORT TITLES" : String).length < 20 ∧
    String.mk (List.replicate 510 'a') ∈
      split_content_into_paragraphs (String.mk (List.replicate 510 'a')) ∧
    500 < (String.mk (List.replicate 510 'a')).length := by
  refine ⟨by decide, by decide, by decide, by decide, by decide⟩
